import Mathlib

/-!
Verification development for the IPO-Screener data-transformation core
(`src/data/chittorgarh/utils/transformer/`).

Shallow embedding conventions:
* A dataframe cell is `Cell`: `null` (pandas NA/NaN), a finite rational
  number, or a raw string (pre-coercion).  Pandas represents missing
  numeric data as NaN, so NaN-valued cells and nulls coincide in `Cell.null`.
* A Python `float` that can be NaN (learned statistics such as medians and
  quantile bounds) is modelled as `Option ℚ`, `none` standing for NaN;
  all actually observed data values are finite, so infinities do not arise.
* A dask/pandas DataFrame is a `Table`: a header (column-name list) plus a
  list of rows, each row an association list from column name to `Cell`.
  `df[col] = series` column assignment is `mapColTable` (existing column)
  or `addColTable` (new column appended at the end of the header).
* Quantiles/medians are modelled by the exact linear-interpolation quantile
  over the sorted non-null values of a column (none when the column has no
  numeric values, matching pandas returning NaN there).
-/

attribute [local semireducible] Rat.add Rat.mul Rat.sub Rat.inv Rat.ofScientific

/-- A Python float that may be NaN: `none` is NaN, `some q` a finite value. -/
abbrev PFloat := Option ℚ

/-- Finite Python float. -/
def pf (q : ℚ) : PFloat := some q

/-- One dataframe cell. -/
inductive Cell where
  | null : Cell
  | num (q : ℚ) : Cell
  | str (s : String) : Cell
deriving DecidableEq, Repr

/-- A dataframe row: association list column-name → cell. -/
abbrev Row := List (String × Cell)

/-- A dask/pandas dataframe. -/
structure Table where
  header : List String
  rows : List Row
deriving DecidableEq, Repr

/-- Cell of `r` at column `c`; `null` when the key is absent. -/
def getCell (r : Row) (c : String) : Cell :=
  match r with
  | [] => Cell.null
  | (c', v) :: rest => if c' = c then v else getCell rest c

/-- Keys of a row. -/
def keysRow (r : Row) : List String := r.map Prod.fst

/-- Write cell `v` at column `c`, replacing the first occurrence of `c`
(column position preserved, as in pandas) or appending if absent. -/
def setCellRow (r : Row) (c : String) (v : Cell) : Row :=
  match r with
  | [] => [(c, v)]
  | (c', v') :: rest => if c' = c then (c, v) :: rest else (c', v') :: setCellRow rest c v

/-- Apply a list of per-column cell updates to one row, in order
(modelling a sequence of `df[col] = df[col].map(f)` assignments, viewed
row-wise). -/
def applyOps (ops : List (String × (Cell → Cell))) (r : Row) : Row :=
  ops.foldl (fun r op => setCellRow r op.1 (op.2 (getCell r op.1))) r

/-- `df[c] = df[c].map(f)` for an existing column: header unchanged. -/
def mapColTable (t : Table) (c : String) (f : Cell → Cell) : Table :=
  { header := t.header,
    rows := t.rows.map (fun r => setCellRow r c (f (getCell r c))) }

/-- `df[c] = <row-derived series>` for a new column: appended to the header. -/
def addColTable (t : Table) (c : String) (f : Row → Cell) : Table :=
  { header := t.header ++ [c],
    rows := t.rows.map (fun r => setCellRow r c (f r)) }

/-- A batch of per-column updates applied to every row. -/
def mapOps (ops : List (String × (Cell → Cell))) (t : Table) : Table :=
  { header := t.header, rows := t.rows.map (applyOps ops) }

/-- The per-column update functions of `ops` that hit column `c`, in order. -/
def opsFor (ops : List (String × (Cell → Cell))) (c : String) : List (Cell → Cell) :=
  (ops.filter (fun op => op.1 = c)).map Prod.snd

/-- Left-to-right composition of cell updates. -/
def composeCell (fs : List (Cell → Cell)) (x : Cell) : Cell :=
  fs.foldl (fun x f => f x) x

/-! ## Column policies and the static strategy registry
(`imputer.py`, `outlier.py`, `normalizer.py`, `strategy.py`, `columns.py`) -/

/-- `ImputerPolicy` from `imputer.py`. -/
inductive ImputerPolicy where
  | NONE | MEDIAN | ZERO | MEDIAN_WITH_MISSING_INDICATOR | ZERO_WITH_MISSING_INDICATOR
deriving DecidableEq, Repr

/-- `OutlierPolicy` from `outlier.py`. -/
inductive OutlierPolicy where
  | NONE | IQR_FILTER | PCTL_FILTER | PCTL_CLIP | CLIP_THEN_PCTL_CLIP
deriving DecidableEq, Repr

/-- `NormalizationPolicy` from `normalizer.py`. -/
inductive NormalizationPolicy where
  | NONE | LOG1P | ROBUST_Z | MINMAX
deriving DecidableEq, Repr

/-- `ColumnStrategy` from `strategy.py`. -/
structure ColumnStrategy where
  imputer : ImputerPolicy
  outlier : OutlierPolicy
  normalization : NormalizationPolicy
  pctl_low : ℚ := 1/100
  pctl_high : ℚ := 99/100
  iqr_k : ℚ := 3/2
  hard_min : Option ℚ := none
  hard_max : Option ℚ := none
deriving DecidableEq, Repr

/-- `DEFAULT_AMOUNT_STRATEGY`. -/
def DEFAULT_AMOUNT_STRATEGY : ColumnStrategy :=
  { imputer := .MEDIAN, outlier := .IQR_FILTER, normalization := .LOG1P }

/-- `DEFAULT_PRICE_STRATEGY`. -/
def DEFAULT_PRICE_STRATEGY : ColumnStrategy :=
  { imputer := .MEDIAN, outlier := .PCTL_FILTER, normalization := .LOG1P }

/-- `DEFAULT_TEXT_DATE_STRATEGY`. -/
def DEFAULT_TEXT_DATE_STRATEGY : ColumnStrategy :=
  { imputer := .NONE, outlier := .NONE, normalization := .NONE }

/-- The percentage/ratio/multiple strategy repeatedly written out inline in
`columns.py`: median imputation, percentile clip, robust-z. -/
def PCT_CLIP_ROBUST_STRATEGY : ColumnStrategy :=
  { imputer := .MEDIAN, outlier := .PCTL_CLIP, normalization := .ROBUST_Z }

/-- GMP strategy in `columns.py`: median imputation, percentile clip, no
normalization. -/
def GMP_STRATEGY : ColumnStrategy :=
  { imputer := .MEDIAN, outlier := .PCTL_CLIP, normalization := .NONE }

/-- Promoter-holding strategy in `columns.py`: hard bounds [0,100] then
percentile clip, robust-z. -/
def PROMOTER_STRATEGY : ColumnStrategy :=
  { imputer := .MEDIAN, outlier := .CLIP_THEN_PCTL_CLIP, normalization := .ROBUST_Z,
    hard_min := some 0, hard_max := some 100 }

/-- Subscription-multiple strategy in `columns.py`: zero imputation,
percentile clip, robust-z, hard_min 0. -/
def SUBSCRIPTION_STRATEGY : ColumnStrategy :=
  { imputer := .ZERO, outlier := .PCTL_CLIP, normalization := .ROBUST_Z,
    hard_min := some 0, hard_max := none }

/-- Allocation-percentage strategy in `columns.py`: zero imputation, hard
bounds [0,100] then percentile clip, robust-z. -/
def ALLOCATION_STRATEGY : ColumnStrategy :=
  { imputer := .ZERO, outlier := .CLIP_THEN_PCTL_CLIP, normalization := .ROBUST_Z,
    hard_min := some 0, hard_max := some 100 }

/-- `IPOColumn.strategy_map()`: the static registry, in `IPOColumn`
declaration order. -/
def strategy_map : List (String × ColumnStrategy) :=
  [ ("assets", DEFAULT_AMOUNT_STRATEGY),
    ("net_worth", DEFAULT_AMOUNT_STRATEGY),
    ("total_debt", DEFAULT_AMOUNT_STRATEGY),
    ("revenue", DEFAULT_AMOUNT_STRATEGY),
    ("ebitda", DEFAULT_AMOUNT_STRATEGY),
    ("pat", DEFAULT_AMOUNT_STRATEGY),
    ("ebitda_margin", PCT_CLIP_ROBUST_STRATEGY),
    ("pat_margin", PCT_CLIP_ROBUST_STRATEGY),
    ("eps", DEFAULT_PRICE_STRATEGY),
    ("roe", PCT_CLIP_ROBUST_STRATEGY),
    ("roce", PCT_CLIP_ROBUST_STRATEGY),
    ("roa", PCT_CLIP_ROBUST_STRATEGY),
    ("debt_to_equity", PCT_CLIP_ROBUST_STRATEGY),
    ("market_capitalisation", DEFAULT_AMOUNT_STRATEGY),
    ("enterprise_value", DEFAULT_AMOUNT_STRATEGY),
    ("ev_ebitda", PCT_CLIP_ROBUST_STRATEGY),
    ("pe_multiple", PCT_CLIP_ROBUST_STRATEGY),
    ("pb_multiple", PCT_CLIP_ROBUST_STRATEGY),
    ("nav", DEFAULT_PRICE_STRATEGY),
    ("company", DEFAULT_TEXT_DATE_STRATEGY),
    ("ipo_open_gmp", GMP_STRATEGY),
    ("ipo_close_gmp", GMP_STRATEGY),
    ("ipo_allotment_gmp", GMP_STRATEGY),
    ("ipo_listing_gmp", GMP_STRATEGY),
    ("ipo_category", DEFAULT_TEXT_DATE_STRATEGY),
    ("exchange", DEFAULT_TEXT_DATE_STRATEGY),
    ("issue_type", DEFAULT_TEXT_DATE_STRATEGY),
    ("ipo_size", DEFAULT_AMOUNT_STRATEGY),
    ("issue_price", DEFAULT_PRICE_STRATEGY),
    ("face_value", DEFAULT_PRICE_STRATEGY),
    ("pre_issue_promoter_holding", PROMOTER_STRATEGY),
    ("post_issue_promoter_holding", PROMOTER_STRATEGY),
    ("dhrp_date", DEFAULT_TEXT_DATE_STRATEGY),
    ("open_date", DEFAULT_TEXT_DATE_STRATEGY),
    ("close_date", DEFAULT_TEXT_DATE_STRATEGY),
    ("allotment_date", DEFAULT_TEXT_DATE_STRATEGY),
    ("listing_date", DEFAULT_TEXT_DATE_STRATEGY),
    ("object_of_issue", DEFAULT_TEXT_DATE_STRATEGY),
    ("listing_price", DEFAULT_TEXT_DATE_STRATEGY),
    ("listing_gain", DEFAULT_TEXT_DATE_STRATEGY),
    ("current_market_price", DEFAULT_PRICE_STRATEGY),
    ("subscription", SUBSCRIPTION_STRATEGY),
    ("allocation_total_ipo_subscription", ALLOCATION_STRATEGY),
    ("subscription_qib", SUBSCRIPTION_STRATEGY),
    ("allocation_qib", ALLOCATION_STRATEGY),
    ("subscription_retail_investors", SUBSCRIPTION_STRATEGY),
    ("allocation_retail_investors", ALLOCATION_STRATEGY),
    ("subscription_employees", SUBSCRIPTION_STRATEGY),
    ("allocation_employees", ALLOCATION_STRATEGY),
    ("subscription_snii_bids_below_10l", SUBSCRIPTION_STRATEGY),
    ("allocation_snii_bids_below_10l", ALLOCATION_STRATEGY),
    ("subscription_bnii_bids_above_10l", SUBSCRIPTION_STRATEGY),
    ("allocation_bnii_bids_above_10l", ALLOCATION_STRATEGY) ]

/-- `DataTransformer.get_strategy`. -/
def getStrategy (c : String) : Option ColumnStrategy :=
  strategy_map.lookup c

/-- `DataTransformer.select`: requested columns present in the table, or the
registry columns present in the table when no explicit list is given. -/
def select (t : Table) (cols : Option (List String)) : List String :=
  match cols with
  | none => (strategy_map.map Prod.fst).filter (fun c => c ∈ t.header)
  | some cs => cs.filter (fun c => c ∈ t.header)

/-! ## Cell operations and column statistics -/

/-- Python `str.strip()`: drop whitespace from both ends. -/
def trimChars (cs : List Char) : List Char :=
  ((cs.dropWhile Char.isWhitespace).reverse.dropWhile Char.isWhitespace).reverse

/-- Python `str.strip()` on a string. -/
def pyStrip (s : String) : String := String.mk (trimChars s.data)

/-- Digits of a decimal run; returns the digits and the unconsumed rest. -/
def splitDigits (cs : List Char) : List ℕ × List Char :=
  match cs with
  | [] => ([], [])
  | c :: rest =>
    if c.isDigit then
      let p := splitDigits rest
      ((c.toNat - 48) :: p.1, p.2)
    else ([], c :: rest)

/-- Value of a digit list read most-significant first. -/
def natOfDigits (ds : List ℕ) : ℕ := ds.foldl (fun a d => 10 * a + d) 0

/-- Exponent suffix of a float literal (`e`/`E`, optional sign, digits);
`some m'` only when the whole rest is consumed. -/
def parseExpPart (m : ℚ) (cs : List Char) : Option ℚ :=
  match cs with
  | [] => some m
  | e :: rest =>
    if e = 'e' ∨ e = 'E' then
      let signAndDigits : ℚ × List Char :=
        match rest with
        | '+' :: r => (1, r)
        | '-' :: r => (-1, r)
        | r => (1, r)
      let p := splitDigits signAndDigits.2
      if p.1 = [] ∨ p.2 ≠ [] then none
      else
        let k : ℕ := natOfDigits p.1
        if signAndDigits.1 = 1 then some (m * 10 ^ k) else some (m / 10 ^ k)
    else none

/-- Unsigned float literal: `digits[.digits]`, `.digits` or `digits.`,
with optional exponent. -/
def parseUnsigned (cs : List Char) : Option ℚ :=
  let ip := splitDigits cs
  match ip.2 with
  | '.' :: r2 =>
    let fp := splitDigits r2
    if ip.1 = [] ∧ fp.1 = [] then none
    else
      parseExpPart ((natOfDigits ip.1 : ℚ) + (natOfDigits fp.1 : ℚ) / 10 ^ fp.1.length)
        fp.2
  | rest =>
    if ip.1 = [] then none else parseExpPart (natOfDigits ip.1 : ℚ) rest

/-- Model of Python `float(s)` / `pandas.to_numeric` string parsing over the
decimal literals that occur in this dataset (leading/trailing whitespace
stripped, optional sign, decimal digits with optional fraction/exponent;
anything else fails).  `inf`/`nan` literals and `_` separators never occur in
the scraped data and are not modelled. -/
def parseFloatQ (s : String) : Option ℚ :=
  match trimChars s.data with
  | '+' :: rest => parseUnsigned rest
  | '-' :: rest => (parseUnsigned rest).map Neg.neg
  | cs => parseUnsigned cs

/-- `dd.to_numeric(col, errors="coerce")` on one cell: numbers and nulls pass
through, strings parse or become null. -/
def toNumeric (x : Cell) : Cell :=
  match x with
  | Cell.null => Cell.null
  | Cell.num q => Cell.num q
  | Cell.str s =>
    match parseFloatQ s with
    | some q => Cell.num q
    | none => Cell.null

/-- `col.fillna(m)` on one cell: `m = none` is a NaN fill value, which fills
nothing. -/
def fillCell (m : PFloat) (x : Cell) : Cell :=
  match x with
  | Cell.null =>
    match m with
    | some q => Cell.num q
    | none => Cell.null
  | x => x

/-- `col.clip(lower=lo, upper=hi)` on one cell; `none` is an absent (or NaN)
threshold, which does not clip; nulls pass through. -/
def clipCell (lo hi : PFloat) (x : Cell) : Cell :=
  match x with
  | Cell.num v =>
    let v1 := match lo with | some l => max v l | none => v
    let v2 := match hi with | some h => min v1 h | none => v1
    Cell.num v2
  | x => x

/-- `col.between(lo, hi)` (inclusive) on one cell: false on null, and false
under a NaN bound. -/
def betweenCell (lo hi : PFloat) (x : Cell) : Bool :=
  match x, lo, hi with
  | Cell.num v, some l, some h => decide (l ≤ v) && decide (v ≤ h)
  | _, _, _ => false

/-- `col.isna()` on one cell. -/
def isnaCell (x : Cell) : Bool := x = Cell.null

/-- `col.isna().astype("int8")` on one cell. -/
def indicatorCell (x : Cell) : Cell :=
  if x = Cell.null then Cell.num 1 else Cell.num 0

/-- `np.isfinite` on a modelled float. -/
def isFiniteP (x : PFloat) : Bool := x.isSome

/-- NaN-propagating subtraction on modelled floats. -/
def pfSub (a b : PFloat) : PFloat :=
  match a, b with
  | some a, some b => some (a - b)
  | _, _ => none

/-- NaN-propagating addition on modelled floats. -/
def pfAdd (a b : PFloat) : PFloat :=
  match a, b with
  | some a, some b => some (a + b)
  | _, _ => none

/-- NaN-propagating multiplication on modelled floats. -/
def pfMul (a b : PFloat) : PFloat :=
  match a, b with
  | some a, some b => some (a * b)
  | _, _ => none

/-- The cells of column `c`, one per row. -/
def colCells (t : Table) (c : String) : List Cell := t.rows.map (fun r => getCell r c)

/-- The numeric (non-null) values among a list of cells. -/
def numVals (cs : List Cell) : List ℚ :=
  cs.filterMap (fun x => match x with | Cell.num q => some q | _ => none)

/-- Insertion into a sorted list of rationals. -/
def insertSorted (x : ℚ) : List ℚ → List ℚ
  | [] => [x]
  | y :: ys => if x ≤ y then x :: y :: ys else y :: insertSorted x ys

/-- Ascending sort of rationals. -/
def sortQ (l : List ℚ) : List ℚ := l.foldr insertSorted []

/-- Exact linear-interpolation quantile of a value list, as computed by
pandas `Series.quantile`; NaN (`none`) on an empty list. -/
def quantileOf (q : ℚ) (vals : List ℚ) : PFloat :=
  let s := sortQ vals
  match s with
  | [] => none
  | _ =>
    let n := s.length
    let pos : ℚ := q * ((n : ℚ) - 1)
    let i : ℕ := pos.floor.toNat
    let fr : ℚ := pos - (i : ℚ)
    if i + 1 < n then
      let xi := s.getD i 0
      let xj := s.getD (i + 1) 0
      some (xi + fr * (xj - xi))
    else some (s.getD i 0)

/-- Column quantile (`df[c].quantile(q)`). -/
def colQuantile (t : Table) (c : String) (q : ℚ) : PFloat :=
  quantileOf q (numVals (colCells t c))

/-- Column median (`df[c].median()`): NaN when the column has no non-null
observations. -/
def colMedian (t : Table) (c : String) : PFloat := colQuantile t c (1/2)

/-- Column minimum (`df[c].min()`, NaN-skipping): NaN when the column has no
non-null observations. -/
def colMin (t : Table) (c : String) : PFloat :=
  match numVals (colCells t c) with
  | [] => none
  | v :: vs => some (vs.foldl min v)

/-- `DataTransformer.compute_quantile_bounds`: `{col: (low, high)}` for the
requested columns that exist in the table (shape handling of the batched
quantile result collapses to per-column quantiles). -/
def computeQuantileBounds (t : Table) (cols : List String) (lq hq : ℚ) :
    List (String × (PFloat × PFloat)) :=
  (cols.filter (fun c => c ∈ t.header)).map
    (fun c => (c, (colQuantile t c lq, colQuantile t c hq)))

/-- `DataTransformer.ensure_numeric`: coerce each listed column that exists
in the table to numeric, in place. -/
def ensureNumeric (t : Table) (cs : List String) : Table :=
  cs.foldl (fun t c => if c ∈ t.header then mapColTable t c toNumeric else t) t

/-- Python `dict` insertion: replace the value of an existing key in place,
else append the new key. -/
def dictInsert {β : Type} (d : List (String × β)) (k : String) (v : β) :
    List (String × β) :=
  match d with
  | [] => [(k, v)]
  | (k', v') :: rest => if k' = k then (k, v) :: rest else (k', v') :: dictInsert rest k v

/-- Insertion into a sorted string list. -/
def insertSortedStr (x : String) : List String → List String
  | [] => [x]
  | y :: ys => if x ≤ y then x :: y :: ys else y :: insertSortedStr x ys

/-- Python `sorted` on strings. -/
def sortStr (l : List String) : List String := l.foldr insertSortedStr []

/-! ## Artifacts (`imputer.py`, `outlier.py`, `normalizer.py`) -/

/-- `ImputationArtifacts`.  Median values are Python floats and may be NaN
(`none`). -/
structure ImputationArtifacts where
  medians : List (String × PFloat)
  add_missing_indicator : List String
  zero_fill : List String
deriving DecidableEq, Repr

/-- `OutlierArtifacts`.  Fitted bounds are Python floats and may be NaN
(`none`); hard-clip entries are optional (`None`) by design. -/
structure OutlierArtifacts where
  pctl_bounds : List (String × (PFloat × PFloat))
  iqr_bounds : List (String × (PFloat × PFloat))
  hard_clip : List (String × (Option ℚ × Option ℚ))
deriving DecidableEq, Repr

/-- `NormalizationArtifacts`. -/
structure NormalizationArtifacts where
  log1p_shift : List (String × PFloat)
  robust_median : List (String × PFloat)
  robust_iqr : List (String × PFloat)
  minmax_min : List (String × PFloat)
  minmax_max : List (String × PFloat)
deriving DecidableEq, Repr

/-- Column maximum (`df[c].max()`, NaN-skipping). -/
def colMax (t : Table) (c : String) : PFloat :=
  match numVals (colCells t c) with
  | [] => none
  | v :: vs => some (vs.foldl max v)

/-! ## Transformer fit/apply (`transformer.py`)

Each fit operation mutates its input dataframe through
`ensure_numeric` (`df[col] = dd.to_numeric(df[col], errors="coerce")`), so
the embedding returns the pair (artifacts, table-after-the-call). -/

/-- Median-policy columns among the selected ones (`fit_imputer`
classification loop). -/
def imputerMedianCols (t : Table) (cols : Option (List String)) : List String :=
  (select t cols).filter (fun c =>
    match getStrategy c with
    | some s => decide (s.imputer = .MEDIAN ∨ s.imputer = .MEDIAN_WITH_MISSING_INDICATOR)
    | none => false)

/-- Zero-fill-policy columns among the selected ones. -/
def imputerZeroCols (t : Table) (cols : Option (List String)) : List String :=
  (select t cols).filter (fun c =>
    match getStrategy c with
    | some s => decide (s.imputer = .ZERO ∨ s.imputer = .ZERO_WITH_MISSING_INDICATOR)
    | none => false)

/-- Missing-indicator-policy columns among the selected ones. -/
def imputerIndicatorCols (t : Table) (cols : Option (List String)) : List String :=
  (select t cols).filter (fun c =>
    match getStrategy c with
    | some s => decide (s.imputer = .MEDIAN_WITH_MISSING_INDICATOR ∨
        s.imputer = .ZERO_WITH_MISSING_INDICATOR)
    | none => false)

/-- `DataTransformer.fit_imputer`. -/
def fitImputer (t : Table) (cols : Option (List String)) :
    ImputationArtifacts × Table :=
  let median_cols := imputerMedianCols t cols
  let zero_cols := imputerZeroCols t cols
  let add_indicator_cols := imputerIndicatorCols t cols
  let t1 := ensureNumeric t ((median_cols ++ zero_cols).dedup)
  let medians := median_cols.foldl (fun d c => dictInsert d c (colMedian t1 c)) []
  ({ medians := medians,
     add_missing_indicator := sortStr add_indicator_cols.dedup,
     zero_fill := sortStr zero_cols.dedup }, t1)

/-- `DataTransformer.__add_missing_indicator`: create `<col>__is_missing`
unless it already exists. -/
def addMissingIndicatorCol (t : Table) (c : String) : Table :=
  let ind := c ++ "__is_missing"
  if ind ∈ t.header then t
  else addColTable t ind (fun r => indicatorCell (getCell r c))

/-- The missing-indicator pass of `impute`: one guarded
`__add_missing_indicator` call per listed column, in order. -/
def addIndicators (ami : List String) (target : List String) (t : Table) : Table :=
  ami.foldl
    (fun t c => if c ∈ t.header ∧ c ∈ target then addMissingIndicatorCol t c else t) t

/-- The numeric-coercion and fill updates of `impute`, as one batch of row
updates (coercion of the fill columns, then median fills, then zero fills). -/
def imputeFillOps (art : ImputationArtifacts) (header target : List String) :
    List (String × (Cell → Cell)) :=
  ((((art.medians.map Prod.fst ++ art.zero_fill).dedup).filter
      (fun c => decide (c ∈ header ∧ c ∈ target))).filter
      (fun c => decide (c ∈ header))).map (fun c => (c, toNumeric))
    ++ (art.medians.filter (fun cm => decide (cm.1 ∈ header ∧ cm.1 ∈ target))).map
      (fun cm => (cm.1, fillCell cm.2))
    ++ (art.zero_fill.filter (fun c => decide (c ∈ header ∧ c ∈ target))).map
      (fun c => (c, fillCell (some 0)))

/-- `DataTransformer.impute`. -/
def impute (artifacts : ImputationArtifacts) (t : Table)
    (cols : Option (List String)) : Table :=
  let target := select t cols
  let t1 := addIndicators artifacts.add_missing_indicator target t
  let fill_cols := (artifacts.medians.map Prod.fst ++ artifacts.zero_fill).dedup
  let t2 := ensureNumeric t1 (fill_cols.filter (fun c => c ∈ t1.header ∧ c ∈ target))
  let t3 := artifacts.medians.foldl
    (fun t cm =>
      if cm.1 ∈ t.header ∧ cm.1 ∈ target then mapColTable t cm.1 (fillCell cm.2) else t)
    t2
  let t4 := artifacts.zero_fill.foldl
    (fun t c =>
      if c ∈ t.header ∧ c ∈ target then mapColTable t c (fillCell (some 0)) else t) t3
  t4

/-- Insertion-ordered grouping (`dict.setdefault(key, []).append(col)`). -/
def groupAdd {κ : Type} [DecidableEq κ] (g : List (κ × List String)) (k : κ)
    (c : String) : List (κ × List String) :=
  match g with
  | [] => [(k, [c])]
  | (k', cs) :: rest =>
    if k' = k then (k, cs ++ [c]) :: rest else (k', cs) :: groupAdd rest k c

/-- Percentile-policy groups keyed by `(pctl_low, pctl_high)`
(`fit_outliers` classification loop). -/
def outlierPctlGroups (t : Table) (cols : Option (List String)) :
    List ((ℚ × ℚ) × List String) :=
  (select t cols).foldl (fun g c =>
    match getStrategy c with
    | some s =>
      if s.outlier = .PCTL_CLIP ∨ s.outlier = .PCTL_FILTER then
        groupAdd g (s.pctl_low, s.pctl_high) c
      else g
    | none => g) []

/-- Clip-then-percentile groups keyed by `(pctl_low, pctl_high)`. -/
def outlierClipThenGroups (t : Table) (cols : Option (List String)) :
    List ((ℚ × ℚ) × List String) :=
  (select t cols).foldl (fun g c =>
    match getStrategy c with
    | some s =>
      if s.outlier = .CLIP_THEN_PCTL_CLIP then groupAdd g (s.pctl_low, s.pctl_high) c
      else g
    | none => g) []

/-- IQR-policy groups keyed by `iqr_k`. -/
def outlierIqrGroups (t : Table) (cols : Option (List String)) :
    List (ℚ × List String) :=
  (select t cols).foldl (fun g c =>
    match getStrategy c with
    | some s => if s.outlier = .IQR_FILTER then groupAdd g s.iqr_k c else g
    | none => g) []

/-- The columns `fit_outliers` coerces to numeric. -/
def outlierNumericCols (t : Table) (cols : Option (List String)) : List String :=
  (((outlierPctlGroups t cols).map Prod.snd).flatten
    ++ ((outlierClipThenGroups t cols).map Prod.snd).flatten
    ++ ((outlierIqrGroups t cols).map Prod.snd).flatten).dedup

/-- `DataTransformer.fit_outliers`. -/
def fitOutliers (t : Table) (cols : Option (List String)) :
    OutlierArtifacts × Table :=
  let target := select t cols
  let hard_clip := target.foldl (fun d c =>
    match getStrategy c with
    | some s => if s.outlier = .NONE then d else dictInsert d c (s.hard_min, s.hard_max)
    | none => d) []
  let pctl_cols := outlierPctlGroups t cols
  let clip_then_pctl := outlierClipThenGroups t cols
  let iqr_cols := outlierIqrGroups t cols
  let t1 := ensureNumeric t (outlierNumericCols t cols)
  let pctl_bounds := pctl_cols.foldl (fun d g =>
    let group := g.2.filter (fun c => c ∈ t1.header)
    if group = [] then d
    else (computeQuantileBounds t1 group g.1.1 g.1.2).foldl
      (fun d e => dictInsert d e.1 e.2) d) []
  let pctl_bounds := clip_then_pctl.foldl (fun d g =>
    let group := g.2.filter (fun c => c ∈ t1.header)
    if group = [] then d
    else (computeQuantileBounds t1 group g.1.1 g.1.2).foldl
      (fun d e => dictInsert d e.1 e.2) d) pctl_bounds
  let iqr_bounds :=
    if iqr_cols ≠ [] then
      let all_iqr := (sortStr ((iqr_cols.map Prod.snd).flatten.dedup)).filter
        (fun c => c ∈ t1.header)
      if all_iqr ≠ [] then
        iqr_cols.foldl (fun d kg =>
          kg.2.foldl (fun d c =>
            if c ∈ all_iqr then
              let q1 := colQuantile t1 c (1/4)
              let q3 := colQuantile t1 c (3/4)
              let iqr := pfSub q3 q1
              dictInsert d c
                (pfSub q1 (pfMul (some kg.1) iqr), pfAdd q3 (pfMul (some kg.1) iqr))
            else d) d) []
      else []
    else []
  ({ pctl_bounds := pctl_bounds, iqr_bounds := iqr_bounds, hard_clip := hard_clip }, t1)

/-- Log1p-policy columns among the selected ones (`fit_normalizer`
classification loop). -/
def logColsOf (t : Table) (cols : Option (List String)) : List String :=
  (select t cols).filter (fun c =>
    match getStrategy c with
    | some s => decide (s.normalization = .LOG1P)
    | none => false)

/-- Robust-z-policy columns among the selected ones. -/
def robustColsOf (t : Table) (cols : Option (List String)) : List String :=
  (select t cols).filter (fun c =>
    match getStrategy c with
    | some s => decide (s.normalization = .ROBUST_Z)
    | none => false)

/-- Minmax-policy columns among the selected ones. -/
def minmaxColsOf (t : Table) (cols : Option (List String)) : List String :=
  (select t cols).filter (fun c =>
    match getStrategy c with
    | some s => decide (s.normalization = .MINMAX)
    | none => false)

/-- The log1p shift learned for one column (`fit_normalizer`): `(-min) + 1`
when the column's minimum is finite and ≤ −1, else `0` (an all-null column
has NaN minimum, which fails the `np.isfinite` check). -/
def log1pShiftVal (t1 : Table) (c : String) : PFloat :=
  match colMin t1 c with
  | some m => if m ≤ -1 then some ((-m) + 1) else some 0
  | none => some 0

/-- `DataTransformer.fit_normalizer`.  Note: the source computes quantile
bounds for robust-z columns and stores only the IQR; `robust_median` is
never assigned and is returned empty. -/
def fitNormalizer (t : Table) (cols : Option (List String)) :
    NormalizationArtifacts × Table :=
  let log_cols := logColsOf t cols
  let robust_cols := robustColsOf t cols
  let minmax_cols := minmaxColsOf t cols
  let t1 := ensureNumeric t ((log_cols ++ robust_cols ++ minmax_cols).dedup)
  let log_cols := log_cols.filter (fun c => c ∈ t1.header)
  let robust_cols := robust_cols.filter (fun c => c ∈ t1.header)
  let minmax_cols := minmax_cols.filter (fun c => c ∈ t1.header)
  let log1p_shift := log_cols.foldl (fun d c => dictInsert d c (log1pShiftVal t1 c)) []
  let bounds := computeQuantileBounds t1 robust_cols (1/4) (3/4)
  let robust_iqr := robust_cols.foldl (fun d c =>
    let b := (bounds.lookup c).getD (none, none)
    dictInsert d c
      (match pfSub b.2 b.1 with
       | some q => if q = 0 then some 1 else some q
       | none => some 1)) []
  let minmax_min := minmax_cols.foldl (fun d c => dictInsert d c (colMin t1 c)) []
  let minmax_max := minmax_cols.foldl (fun d c => dictInsert d c (colMax t1 c)) []
  ({ log1p_shift := log1p_shift, robust_median := [], robust_iqr := robust_iqr,
     minmax_min := minmax_min, minmax_max := minmax_max }, t1)

/-- `DataTransformer.normalize`, parameterized by the real function
`np.log1p` restricted to its domain (its numeric values are irrelevant to
every claim; out-of-domain results are non-finite and modelled as null,
a case the fitted shift provably avoids). -/
def normalizeTable (lg : ℚ → ℚ) (normalizer : NormalizationArtifacts) (t : Table)
    (cols : Option (List String)) : Table :=
  let target := select t cols
  let log_cols := target.filter (fun c => (normalizer.log1p_shift.lookup c).isSome)
  let robust_cols := target.filter (fun c => (normalizer.robust_median.lookup c).isSome)
  let minmax_cols := target.filter (fun c => (normalizer.minmax_min.lookup c).isSome)
  let t1 := ensureNumeric t ((log_cols ++ robust_cols ++ minmax_cols).dedup)
  let t2 := log_cols.foldl (fun t c =>
    let shift := (normalizer.log1p_shift.lookup c).getD (some 0)
    mapColTable t c (fun x =>
      match x with
      | Cell.num v =>
        let xv : PFloat :=
          match shift with
          | some s => if s = 0 then some v else some (v + s)
          | none => none
        match xv with
        | some xq => if xq > -1 then Cell.num (lg xq) else Cell.null
        | none => Cell.null
      | x => x)) t1
  let t3 := robust_cols.foldl (fun t c =>
    let med := (normalizer.robust_median.lookup c).getD none
    let iqr0 := (normalizer.robust_iqr.lookup c).getD (some 1)
    let iqr1 := match iqr0 with
      | some q => if q = 0 then some 1 else some q
      | none => none
    let iqr : ℚ := match iqr1 with
      | some q => if q = 0 then 1 else q
      | none => 1
    mapColTable t c (fun x =>
      match x with
      | Cell.num v =>
        match med with
        | some m => Cell.num ((v - m) / iqr)
        | none => Cell.null
      | x => x)) t2
  let t4 := minmax_cols.foldl (fun t c =>
    let mn := (normalizer.minmax_min.lookup c).getD none
    let mx := (normalizer.minmax_max.lookup c).getD none
    let denom : PFloat := match pfSub mx mn with
      | some d => if d = 0 then some 1 else some d
      | none => some 1
    mapColTable t c (fun x =>
      match x with
      | Cell.num v =>
        match mn, denom with
        | some m, some d => Cell.num ((v - m) / d)
        | _, _ => Cell.null
      | x => x)) t3
  t4

/-- Pre stage of `handle_outliers`, shared by both modes: numeric coercion of
the targeted columns carrying fitted bounds, then the hard clip (step 1). -/
def outlierPreStage (artifacts : OutlierArtifacts) (t : Table)
    (cols : Option (List String)) : Table :=
  let target := select t cols
  let touch := (artifacts.pctl_bounds.map Prod.fst
    ++ artifacts.iqr_bounds.map Prod.fst).dedup
  let t0 := ensureNumeric t (touch.filter (fun c => c ∈ t.header ∧ c ∈ target))
  artifacts.hard_clip.foldl (fun t e =>
    if e.1 ∈ t.header ∧ e.1 ∈ target ∧ (e.2.1 ≠ none ∨ e.2.2 ≠ none) then
      mapColTable t e.1 (clipCell e.2.1 e.2.2)
    else t) t0

/-- The row masks accumulated in drop mode: one `between(lo, hi) | isna`
check per fitted percentile bound and per fitted IQR bound on a targeted
existing column.  Hard-clip bounds contribute no mask. -/
def dropPreds (artifacts : OutlierArtifacts) (header target : List String) :
    List (Row → Bool) :=
  (artifacts.pctl_bounds.filter (fun e => decide (e.1 ∈ header ∧ e.1 ∈ target))).map
      (fun e r => betweenCell e.2.1 e.2.2 (getCell r e.1) || isnaCell (getCell r e.1))
    ++ (artifacts.iqr_bounds.filter (fun e => decide (e.1 ∈ header ∧ e.1 ∈ target))).map
      (fun e r => betweenCell e.2.1 e.2.2 (getCell r e.1) || isnaCell (getCell r e.1))

/-- `DataTransformer.handle_outliers`: an invalid mode raises; otherwise hard
clip first, then percentile bounds, then IQR bounds — clipping values in
"clip" mode, conjoining row masks and filtering once in "drop" mode (the
table passes through unfiltered when no mask was built). -/
def handleOutliers (artifacts : OutlierArtifacts) (t : Table)
    (cols : Option (List String)) (mode : String) : Except String Table :=
  if mode = "clip" ∨ mode = "drop" then
    let target := select t cols
    let t1 := outlierPreStage artifacts t cols
    if mode = "clip" then
      let t2 := artifacts.pctl_bounds.foldl (fun t e =>
        if e.1 ∈ t.header ∧ e.1 ∈ target then
          mapColTable t e.1 (clipCell e.2.1 e.2.2)
        else t) t1
      let t3 := artifacts.iqr_bounds.foldl (fun t e =>
        if e.1 ∈ t.header ∧ e.1 ∈ target then
          mapColTable t e.1 (clipCell e.2.1 e.2.2)
        else t) t2
      Except.ok t3
    else
      let preds := dropPreds artifacts t1.header target
      if preds.isEmpty then Except.ok t1
      else
        Except.ok
          { header := t1.header,
            rows := t1.rows.filter (fun r => preds.all (fun p => p r)) }
  else Except.error "mode must be clip or drop"

/-! ## Money parser (`parser.py`) -/

/-- `Parser._PLACEHOLDER_TOKENS`. -/
def placeholderTokens : List String :=
  ["[●]", "[•]", "—", "-", "NA", "N/A", "null", "None", ""]

/-- `Parser._normalize_missing`. -/
def normalizeMissing (x : Option String) : Option String :=
  match x with
  | none => none
  | some s =>
    let s := pyStrip s
    if s ∈ placeholderTokens then none else some s

/-- Regex word character (`\w`): the scraped strings are ASCII words, digits
and currency glyphs, so ASCII alphanumerics and underscore suffice. -/
def isWordChar (c : Char) : Bool := c.isAlphanum || c = '_'

/-- Regex word boundary (`\b`) between two adjacent positions
(`none` = outside the string). -/
def isBoundary (a b : Option Char) : Bool :=
  (match a with | some c => isWordChar c | none => false)
    != (match b with | some c => isWordChar c | none => false)

/-- The alternatives of `_MONEY_UNIT_RX = \b(cr|cr\.|crore|lakh|lakhs)\b`,
in regex order. -/
def moneyUnitAlts : List (List Char) :=
  [['c','r'], ['c','r','.'], ['c','r','o','r','e'], ['l','a','k','h'],
   ['l','a','k','h','s']]

/-- `some rest` when `alt` is a literal prefix of `cs`. -/
def takeAlt : List Char → List Char → Option (List Char)
  | [], cs => some cs
  | _, [] => none
  | a :: as, c :: cs => if a = c then takeAlt as cs else none

/-- Does `alt` match at the current position (`prev` = preceding original
character), including both `\b` anchors? -/
def altMatchAt (prev : Option Char) (cs : List Char) (alt : List Char) : Bool :=
  match takeAlt alt cs with
  | some rest => isBoundary prev alt.head? && isBoundary alt.getLast? rest.head?
  | none => false

/-- First alternative matching at the current position (regex alternation is
leftmost-alternative-first, with the trailing `\b` checked per alternative). -/
def firstAltAt (prev : Option Char) (cs : List Char) : Option (List Char) :=
  moneyUnitAlts.find? (fun alt => altMatchAt prev cs alt)

/-- `_MONEY_UNIT_RX.search`: matched group of the leftmost match. -/
def findMoneyUnit : Option Char → List Char → Option (List Char)
  | _, [] => none
  | prev, c :: cs =>
    match firstAltAt prev (c :: cs) with
    | some alt => some alt
    | none => findMoneyUnit (some c) cs

/-- `_MONEY_UNIT_RX.sub("", ·)`: remove all non-overlapping leftmost matches.
`fuel` bounds the recursion (the initial string length suffices, as every
step consumes at least one character). -/
def subMoneyUnits (fuel : ℕ) (prev : Option Char) (cs : List Char) : List Char :=
  match fuel, cs with
  | 0, cs => cs
  | _, [] => []
  | Nat.succ f, c :: cs' =>
    match firstAltAt prev (c :: cs') with
    | some alt => subMoneyUnits f alt.getLast? ((c :: cs').drop alt.length)
    | none => c :: subMoneyUnits f (some c) cs'

/-- `_CURRENCY_RX.sub("", ·)`: remove `₹`, commas and all whitespace. -/
def stripCurrencyChars (cs : List Char) : List Char :=
  cs.filter (fun c => !(c = '₹' || c = ',' || c.isWhitespace))

/-- Python `str.lower` over the characters that occur here. -/
def lowerStr (s : String) : String := String.mk (s.data.map Char.toLower)

/-- `Parser.parse_indian_money_to_number`. -/
def parseIndianMoneyToNumber (x : Option String) : Option ℚ :=
  match normalizeMissing x with
  | none => none
  | some s =>
    let sLow := lowerStr s
    let unit : Option String := (findMoneyUnit none sLow.data).map String.mk
    let cs1 := stripCurrencyChars sLow.data
    let sNum := pyStrip (String.mk (subMoneyUnits cs1.length none cs1))
    if sNum = "" then none
    else
      match parseFloatQ sNum with
      | none => none
      | some val =>
        if unit = some "lakh" ∨ unit = some "lakhs" then some (val / 100)
        else some val

/-- `Parser.parse_number` (generic number parser: strip commas, parse float). -/
def parseNumber (x : Option String) : Option ℚ :=
  match normalizeMissing x with
  | none => none
  | some s =>
    parseFloatQ (pyStrip (String.mk (s.data.filter (fun c => c ≠ ','))))

/-! ## Artifact JSON serialization (`save`/`load` via `to_json_str` /
`from_json_str`)

The text layer (`json.dumps` / `json.loads`) round-trips this value tree
exactly: Python's `repr` of a finite double is read back to the same double,
`NaN` is emitted and parsed as a distinguished token, and `null` stays
`null`; so `save` followed by `load` is modelled as encoding to the tree and
decoding it back. -/

/-- A JSON value as produced by `json.dumps`. -/
inductive Json where
  | null : Json
  | nan : Json
  | num (q : ℚ) : Json
  | str (s : String) : Json
  | arr (xs : List Json) : Json
  | obj (kvs : List (String × Json)) : Json

/-- Serialize a Python float (NaN included). -/
def jsonOfPF (x : PFloat) : Json :=
  match x with
  | some q => Json.num q
  | none => Json.nan

/-- `float(v)` applied by the loaders to a decoded JSON number. -/
def pfOfJson (j : Json) : Option PFloat :=
  match j with
  | Json.num q => some (some q)
  | Json.nan => some none
  | _ => none

/-- Serialize an optional bound (`None` → `null`). -/
def jsonOfOptQ (x : Option ℚ) : Json :=
  match x with
  | some q => Json.num q
  | none => Json.null

/-- `float(v) if v is not None else None` applied by the outlier loader. -/
def optQOfJson (j : Json) : Option (Option ℚ) :=
  match j with
  | Json.num q => some (some q)
  | Json.null => some none
  | _ => none

/-- A float-valued dict, e.g. `medians` or the normalizer dicts. -/
def jsonFloatDict (d : List (String × PFloat)) : Json :=
  Json.obj (d.map (fun kv => (kv.1, jsonOfPF kv.2)))

/-- Decode a float-valued dict (`{k: float(v) for k, v in ...}`). -/
def decodeFloatDict (j : Json) : Option (List (String × PFloat)) :=
  match j with
  | Json.obj kvs => kvs.mapM (fun kv => (pfOfJson kv.2).map (fun v => (kv.1, v)))
  | _ => none

/-- Decode a string list (`list(d.get(key, []))`; the dumped lists contain
only strings). -/
def decodeStrList (j : Json) : Option (List String) :=
  match j with
  | Json.arr xs =>
    xs.mapM (fun x => match x with | Json.str s => some s | _ => none)
  | _ => none

/-- A bounds dict: `{k: [float(lo), float(hi)]}`. -/
def jsonBoundsDict (d : List (String × (PFloat × PFloat))) : Json :=
  Json.obj (d.map (fun kv => (kv.1, Json.arr [jsonOfPF kv.2.1, jsonOfPF kv.2.2])))

/-- Decode a bounds dict (`(float(v[0]), float(v[1]))`). -/
def decodeBoundsDict (j : Json) : Option (List (String × (PFloat × PFloat))) :=
  match j with
  | Json.obj kvs =>
    kvs.mapM (fun kv =>
      match kv.2 with
      | Json.arr [a, b] => do
        let lo ← pfOfJson a
        let hi ← pfOfJson b
        some (kv.1, (lo, hi))
      | _ => none)
  | _ => none

/-- The hard-clip dict: `{k: [v0, v1]}` with `None` entries kept as `null`. -/
def jsonHardDict (d : List (String × (Option ℚ × Option ℚ))) : Json :=
  Json.obj (d.map (fun kv => (kv.1, Json.arr [jsonOfOptQ kv.2.1, jsonOfOptQ kv.2.2])))

/-- Decode the hard-clip dict. -/
def decodeHardDict (j : Json) : Option (List (String × (Option ℚ × Option ℚ))) :=
  match j with
  | Json.obj kvs =>
    kvs.mapM (fun kv =>
      match kv.2 with
      | Json.arr [a, b] => do
        let lo ← optQOfJson a
        let hi ← optQOfJson b
        some (kv.1, (lo, hi))
      | _ => none)
  | _ => none

/-- `d.get(key, dflt)`. -/
def jsonGet (kvs : List (String × Json)) (k : String) (dflt : Json) : Json :=
  (kvs.lookup k).getD dflt

/-- `ImputationArtifacts.to_json_str`, as the dumped value tree. -/
def imputationToJson (a : ImputationArtifacts) : Json :=
  Json.obj
    [("medians", jsonFloatDict a.medians),
     ("add_missing_indicator", Json.arr (a.add_missing_indicator.map Json.str)),
     ("zero_fill", Json.arr (a.zero_fill.map Json.str))]

/-- `ImputationArtifacts.from_json_str`. -/
def imputationFromJson (j : Json) : Option ImputationArtifacts :=
  match j with
  | Json.obj d => do
    let m ← decodeFloatDict (jsonGet d "medians" (Json.obj []))
    let ami ← decodeStrList (jsonGet d "add_missing_indicator" (Json.arr []))
    let zf ← decodeStrList (jsonGet d "zero_fill" (Json.arr []))
    some { medians := m, add_missing_indicator := ami, zero_fill := zf }
  | _ => none

/-- `OutlierArtifacts.to_json_str`. -/
def outlierToJson (a : OutlierArtifacts) : Json :=
  Json.obj
    [("pctl_bounds", jsonBoundsDict a.pctl_bounds),
     ("iqr_bounds", jsonBoundsDict a.iqr_bounds),
     ("hard_clip", jsonHardDict a.hard_clip)]

/-- `OutlierArtifacts.from_json_str`. -/
def outlierFromJson (j : Json) : Option OutlierArtifacts :=
  match j with
  | Json.obj d => do
    let pb ← decodeBoundsDict (jsonGet d "pctl_bounds" (Json.obj []))
    let ib ← decodeBoundsDict (jsonGet d "iqr_bounds" (Json.obj []))
    let hc ← decodeHardDict (jsonGet d "hard_clip" (Json.obj []))
    some { pctl_bounds := pb, iqr_bounds := ib, hard_clip := hc }
  | _ => none

/-- `NormalizationArtifacts.to_json_str` (`json.dumps(asdict(self))`). -/
def normalizationToJson (a : NormalizationArtifacts) : Json :=
  Json.obj
    [("log1p_shift", jsonFloatDict a.log1p_shift),
     ("robust_median", jsonFloatDict a.robust_median),
     ("robust_iqr", jsonFloatDict a.robust_iqr),
     ("minmax_min", jsonFloatDict a.minmax_min),
     ("minmax_max", jsonFloatDict a.minmax_max)]

/-- `NormalizationArtifacts.from_json_str`. -/
def normalizationFromJson (j : Json) : Option NormalizationArtifacts :=
  match j with
  | Json.obj d => do
    let ls ← decodeFloatDict (jsonGet d "log1p_shift" (Json.obj []))
    let rm ← decodeFloatDict (jsonGet d "robust_median" (Json.obj []))
    let ri ← decodeFloatDict (jsonGet d "robust_iqr" (Json.obj []))
    let mn ← decodeFloatDict (jsonGet d "minmax_min" (Json.obj []))
    let mx ← decodeFloatDict (jsonGet d "minmax_max" (Json.obj []))
    some { log1p_shift := ls, robust_median := rm, robust_iqr := ri,
           minmax_min := mn, minmax_max := mx }
  | _ => none

/-! ## Concrete tables and artifacts used by the claim theorems -/

/-- A table with a single robust-z column (`roe`) holding 1, 2, 3, 5. -/
def tC1 : Table :=
  { header := ["roe"],
    rows := [[("roe", Cell.num 1)], [("roe", Cell.num 2)], [("roe", Cell.num 3)],
      [("roe", Cell.num 5)]] }

/-- The artifacts fitted on `tC1`. -/
def artC1 : NormalizationArtifacts := (fitNormalizer tC1 (some ["roe"])).fst

/-- A table whose median-policy column `assets` has zero non-null
observations. -/
def tC8 : Table :=
  { header := ["assets"], rows := [[("assets", Cell.null)], [("assets", Cell.null)]] }

/-- A table whose targeted median column is string-typed. -/
def tC6 : Table := { header := ["assets"], rows := [[("assets", Cell.str "12")]] }

/-- An already-numeric table for the C6 witness. -/
def tW6 : Table :=
  { header := ["assets"], rows := [[("assets", Cell.num 7)], [("assets", Cell.null)]] }

/-- A log1p-policy column (`assets`) containing a value ≤ −1. -/
def tW7 : Table :=
  { header := ["assets"], rows := [[("assets", Cell.num (-5))], [("assets", Cell.num 2)]] }

/-- The numeric-coercion updates of `handle_outliers` (step 0), as one batch. -/
def outlierCoerceOps (art : OutlierArtifacts) (t : Table) (cols : Option (List String)) :
    List (String × (Cell → Cell)) :=
  ((((art.pctl_bounds.map Prod.fst ++ art.iqr_bounds.map Prod.fst).dedup).filter
      (fun c => decide (c ∈ t.header ∧ c ∈ select t cols))).filter
      (fun c => decide (c ∈ t.header))).map (fun c => (c, toNumeric))

/-- The hard-clip updates of `handle_outliers` (step 1), as one batch. -/
def hardClipOps (art : OutlierArtifacts) (header target : List String) :
    List (String × (Cell → Cell)) :=
  (art.hard_clip.filter (fun e =>
      decide (e.1 ∈ header ∧ e.1 ∈ target ∧ (e.2.1 ≠ none ∨ e.2.2 ≠ none)))).map
    (fun e => (e.1, clipCell e.2.1 e.2.2))

/-- The percentile-clip updates of `handle_outliers` (step 2, clip mode). -/
def pctlClipOps (art : OutlierArtifacts) (header target : List String) :
    List (String × (Cell → Cell)) :=
  (art.pctl_bounds.filter (fun e => decide (e.1 ∈ header ∧ e.1 ∈ target))).map
    (fun e => (e.1, clipCell e.2.1 e.2.2))

/-- The IQR-clip updates of `handle_outliers` (step 3, clip mode). -/
def iqrClipOps (art : OutlierArtifacts) (header target : List String) :
    List (String × (Cell → Cell)) :=
  (art.iqr_bounds.filter (fun e => decide (e.1 ∈ header ∧ e.1 ∈ target))).map
    (fun e => (e.1, clipCell e.2.1 e.2.2))

/-- Outlier artifacts with one fitted percentile bound, for the C5 witness. -/
def artC5 : OutlierArtifacts :=
  { pctl_bounds := [("roe", (some 1, some 3))], iqr_bounds := [], hard_clip := [] }

/-- Input table for the C5 witness: values 2, 5 and a null. -/
def tC5 : Table :=
  { header := ["roe"],
    rows := [[("roe", Cell.num 2)], [("roe", Cell.num 5)], [("roe", Cell.null)]] }

/-- Drop-mode output for the C5 witness: the row with 5 is excluded. -/
def tC5' : Table :=
  { header := ["roe"], rows := [[("roe", Cell.num 2)], [("roe", Cell.null)]] }

/-- C10 witness artifacts: hard bounds [0, 100] and percentile bounds
(0, 100) on column `p`. -/
def artC10 : OutlierArtifacts :=
  { pctl_bounds := [("p", (some 0, some 100))], iqr_bounds := [],
    hard_clip := [("p", (some 0, some 100))] }

/-- C10 witness input: a single row violating the hard bounds (150 > 100). -/
def tC10 : Table := { header := ["p"], rows := [[("p", Cell.num 150)]] }

/-- C10 witness output: the row survives, hard-clipped to 100. -/
def tC10' : Table := { header := ["p"], rows := [[("p", Cell.num 100)]] }

/-- The hard-clipped row of the C10 witness. -/
def rC10 : Row := [("p", Cell.num 100)]

/-- Outlier artifacts with one fitted percentile bound, for the C4 witness. -/
def artC4 : OutlierArtifacts :=
  { pctl_bounds := [("roe", (some 1, some 3))], iqr_bounds := [], hard_clip := [] }

/-- Input table for the C4 witness: values 0 and 5 (out of bounds) and a null. -/
def tC4 : Table :=
  { header := ["roe"],
    rows := [[("roe", Cell.num 0)], [("roe", Cell.num 5)], [("roe", Cell.null)]] }

/-- Clip-mode output for the C4 witness: values clipped to 1 and 3, null kept. -/
def tC4' : Table :=
  { header := ["roe"],
    rows := [[("roe", Cell.num 1)], [("roe", Cell.num 3)], [("roe", Cell.null)]] }

/-- A cell that is not a raw string (the state of a fill column after
numeric coercion). -/
def notStr (x : Cell) : Prop := x = Cell.null ∨ ∃ q : ℚ, x = Cell.num q

/-- The common shape of the fill batch: numeric coercions, then median
fills, then zero fills, over already-filtered column lists. -/
def fillOpsOf (cl : List String) (ml : List (String × PFloat)) (zl : List String) :
    List (String × (Cell → Cell)) :=
  cl.map (fun a => (a, toNumeric))
    ++ ml.map (fun cm => (cm.1, fillCell cm.2))
    ++ zl.map (fun a => (a, fillCell (some 0)))

/-- Counterexample artifacts for C3: the indicator list contains both a
column and its own indicator name. -/
def artC3 : ImputationArtifacts :=
  { medians := [], add_missing_indicator := ["a", "a__is_missing"], zero_fill := [] }

/-- Counterexample table for C3: a single all-null column `a`. -/
def tC3 : Table := { header := ["a"], rows := [[("a", Cell.null)]] }

/-- Witness artifacts for the amended C3 theorem. -/
def artW3 : ImputationArtifacts :=
  { medians := [("a", some 5)], add_missing_indicator := ["a"], zero_fill := ["b"] }

/-- Witness table for the amended C3 theorem. -/
def tW3 : Table :=
  { header := ["a", "b"],
    rows := [[("a", Cell.null), ("b", Cell.null)], [("a", Cell.num 2), ("b", Cell.str "7")]] }

/-! ## Theorems -/

theorem getCell_setCellRow_same (r : Row) (c : String) (v : Cell) :
    getCell (setCellRow r c v) c = v := by
  induction r with
  | nil => simp [setCellRow, getCell]
  | cons p rest ih =>
    obtain ⟨pc, pv⟩ := p
    by_cases h : pc = c
    · simp [setCellRow, h, getCell]
    · simp [setCellRow, h, getCell, ih]

theorem getCell_setCellRow_ne (r : Row) (c c' : String) (v : Cell) (h : c ≠ c') :
    getCell (setCellRow r c v) c' = getCell r c' := by
  induction r with
  | nil => simp [setCellRow, getCell, h]
  | cons p rest ih =>
    obtain ⟨pc, pv⟩ := p
    by_cases h1 : pc = c
    · subst h1
      simp [setCellRow, getCell, h]
    · simp only [setCellRow, if_neg h1, getCell]
      by_cases h2 : pc = c'
      · simp [h2]
      · simp [h2, ih]

theorem mem_keysRow_setCellRow (r : Row) (c : String) (v : Cell) :
    c ∈ keysRow (setCellRow r c v) := by
  induction r with
  | nil => simp [setCellRow, keysRow]
  | cons p rest ih =>
    obtain ⟨pc, pv⟩ := p
    by_cases h : pc = c
    · simp [setCellRow, h, keysRow]
    · simp only [setCellRow, if_neg h, keysRow, List.map_cons, List.mem_cons]
      exact Or.inr ih

theorem keysRow_setCellRow_mono (r : Row) (c c' : String) (v : Cell)
    (h : c' ∈ keysRow r) : c' ∈ keysRow (setCellRow r c v) := by
  induction r with
  | nil => simp [keysRow] at h
  | cons p rest ih =>
    obtain ⟨pc, pv⟩ := p
    simp only [keysRow, List.map_cons, List.mem_cons] at h
    by_cases h1 : pc = c
    · subst h1
      simpa [setCellRow, keysRow] using h
    · simp only [setCellRow, if_neg h1, keysRow, List.map_cons, List.mem_cons]
      rcases h with h | h
      · exact Or.inl h
      · exact Or.inr (ih h)

/-- Writing back the value already present leaves the row unchanged,
provided the key is present. -/
theorem setCellRow_self (r : Row) (c : String) (h : c ∈ keysRow r) :
    setCellRow r c (getCell r c) = r := by
  induction r with
  | nil => simp [keysRow] at h
  | cons p rest ih =>
    obtain ⟨pc, pv⟩ := p
    by_cases h1 : pc = c
    · subst h1
      simp [setCellRow, getCell]
    · simp only [keysRow, List.map_cons, List.mem_cons] at h
      rcases h with h | h
      · exact absurd h.symm h1
      · simp [setCellRow, getCell, h1, ih h]

theorem applyOps_append (o1 o2 : List (String × (Cell → Cell))) (r : Row) :
    applyOps (o1 ++ o2) r = applyOps o2 (applyOps o1 r) := by
  simp [applyOps, List.foldl_append]

theorem mapOps_mapOps (o1 o2 : List (String × (Cell → Cell))) (t : Table) :
    mapOps o2 (mapOps o1 t) = mapOps (o1 ++ o2) t := by
  simp [mapOps, applyOps_append, Function.comp]

theorem mapColTable_eq_mapOps (t : Table) (c : String) (f : Cell → Cell) :
    mapColTable t c f = mapOps [(c, f)] t := by
  simp [mapColTable, mapOps, applyOps]

theorem header_mapColTable (t : Table) (c : String) (f : Cell → Cell) :
    (mapColTable t c f).header = t.header := rfl

theorem mapOps_nil (t : Table) : mapOps [] t = t := by
  have h : applyOps [] = id := funext fun _ => rfl
  cases t
  simp [mapOps, h]

theorem getCell_applyOps (ops : List (String × (Cell → Cell))) (r : Row) (c : String) :
    getCell (applyOps ops r) c = composeCell (opsFor ops c) (getCell r c) := by
  induction ops generalizing r with
  | nil => simp [applyOps, opsFor, composeCell]
  | cons op rest ih =>
    obtain ⟨oc, of⟩ := op
    have hrec := ih (setCellRow r oc (of (getCell r oc)))
    by_cases h : oc = c
    · subst h
      simp only [applyOps, List.foldl_cons] at hrec ⊢
      rw [hrec, getCell_setCellRow_same]
      simp [opsFor, composeCell, List.filter_cons]
    · simp only [applyOps, List.foldl_cons] at hrec ⊢
      rw [hrec, getCell_setCellRow_ne _ _ _ _ h]
      simp [opsFor, composeCell, List.filter_cons, h]

theorem keysRow_applyOps_mono (ops : List (String × (Cell → Cell))) (r : Row)
    (c : String) (h : c ∈ keysRow r) : c ∈ keysRow (applyOps ops r) := by
  induction ops generalizing r with
  | nil => simpa [applyOps] using h
  | cons op rest ih =>
    simp only [applyOps, List.foldl_cons]
    exact ih _ (keysRow_setCellRow_mono _ _ _ _ h)

theorem mem_keysRow_applyOps (ops : List (String × (Cell → Cell))) (r : Row)
    (c : String) (f : Cell → Cell) (h : (c, f) ∈ ops) :
    c ∈ keysRow (applyOps ops r) := by
  induction ops generalizing r with
  | nil => simp at h
  | cons op rest ih =>
    simp only [List.mem_cons] at h
    simp only [applyOps, List.foldl_cons]
    rcases h with h | h
    · subst h
      exact keysRow_applyOps_mono _ _ _ (mem_keysRow_setCellRow _ _ _)
    · exact ih _ h

theorem applyOps_fixpoint (ops : List (String × (Cell → Cell))) (r : Row)
    (h : ∀ op ∈ ops, setCellRow r op.1 (op.2 (getCell r op.1)) = r) :
    applyOps ops r = r := by
  induction ops with
  | nil => simp [applyOps]
  | cons op rest ih =>
    simp only [applyOps, List.foldl_cons]
    rw [h op (List.mem_cons_self _ _)]
    exact ih (fun op hop => h op (List.mem_cons_of_mem _ hop))

/-- A guarded fold of single-column assignments (the shape of every
`for col in ...: df[col] = ...` loop in the transformer, where the guard
consults only the current header) is one batch of row updates. -/
theorem foldl_guard_mapCol {α : Type} (key : α → String) (fn : α → Cell → Cell)
    (P : List String → α → Bool) (l : List α) (t : Table) :
    l.foldl (fun t a => if P t.header a then mapColTable t (key a) (fn a) else t) t
      = mapOps ((l.filter (P t.header)).map (fun a => (key a, fn a))) t := by
  induction l generalizing t with
  | nil => simp [mapOps_nil]
  | cons a rest ih =>
    simp only [List.foldl_cons]
    by_cases h : P t.header a
    · rw [if_pos h, ih, header_mapColTable, mapColTable_eq_mapOps, mapOps_mapOps]
      simp [List.filter_cons, h]
    · have hdec : P t.header a = false := by simpa using h
      rw [if_neg (by simp [hdec]), ih]
      simp [List.filter_cons, hdec]

/-- C1: The claim says `fit_normalizer` records each robust-z column's median
as the center and its IQR as the scale, and that `normalize` maps `v` to
`(v − center)/IQR`, treating a missing center as `0.0`.  The code contradicts
this (and its own comment "compute medians + q1/q3 once" and the
`robust_median` field documentation): on a table whose robust-z column `roe`
holds 1, 2, 3, 5, the fitted `robust_median` is empty even though
`robust_iqr` records Q3−Q1 = 7/4, and `normalize` then skips the column
entirely (it filters on membership in `robust_median`), returning the table
unchanged instead of applying `(v − 0)/IQR`. -/
theorem fit_normalizer_robust_median_unpopulated :
    artC1.robust_median = [] ∧ artC1.robust_iqr = [("roe", some (7/4))] ∧
      ∀ lg : ℚ → ℚ, normalizeTable lg artC1 tC1 (some ["roe"]) = tC1 := by
  refine ⟨by decide, by decide, fun lg => rfl⟩

/-- C8: The claim (from the spec's error-handling design) says a median-policy
column with zero non-null observations must be surfaced explicitly rather
than silently storing an arbitrary or NaN median.  The code computes
`df[col].median()` (NaN on an all-null column) and stores
`float(m[c])` unconditionally: on a table whose `assets` column is all null,
the fitted artifacts silently contain a NaN median for `assets`. -/
theorem fit_imputer_stores_nan_median :
    (fitImputer tC8 (some ["assets"])).fst.medians = [("assets", none)] := by
  decide

/-- C9: The claim (and the parser's own docstring) says `"₹ 356.19 Cr."`
parses to `356.19` and `"₹ 25.5 Lakh"` to `0.255`.  The code strips
whitespace before removing the unit token, so `\b(cr|cr\.|crore|lakh|lakhs)\b`
no longer finds a word boundary inside `"356.19cr."`/`"25.5lakh"`, the unit
is never removed, `float()` fails, and both inputs return null.  The
placeholder `"[●]"` does map to null and a unit-less `"1,617.30"` does parse,
as claimed. -/
theorem money_parser_unit_strings_rejected :
    parseIndianMoneyToNumber (some "₹ 356.19 Cr.") = none ∧
      parseIndianMoneyToNumber (some "₹ 25.5 Lakh") = none ∧
      parseIndianMoneyToNumber (some "[●]") = none ∧
      parseIndianMoneyToNumber (some "1,617.30") = some (16173/10) := by
  refine ⟨by decide, by decide, by decide, by decide⟩

theorem pfOfJson_jsonOfPF (v : PFloat) : pfOfJson (jsonOfPF v) = some v := by
  cases v <;> rfl

theorem optQOfJson_jsonOfOptQ (v : Option ℚ) : optQOfJson (jsonOfOptQ v) = some v := by
  cases v <;> rfl

theorem mapM_map_encode {β γ : Type} (enc : β → γ) (dec : γ → Option β)
    (h : ∀ b, dec (enc b) = some b) (l : List β) :
    (l.map enc).mapM dec = some l := by
  induction l with
  | nil => rfl
  | cons b rest ih =>
    rw [List.map_cons, List.mapM_cons, h, ih]
    rfl

theorem decodeFloatDict_encode (d : List (String × PFloat)) :
    decodeFloatDict (jsonFloatDict d) = some d := by
  have := mapM_map_encode (fun kv : String × PFloat => (kv.1, jsonOfPF kv.2))
    (fun kv => (pfOfJson kv.2).map (fun v => (kv.1, v)))
    (by rintro ⟨k, v⟩; cases v <;> rfl) d
  simpa [jsonFloatDict, decodeFloatDict] using this

theorem decodeStrList_encode (l : List String) :
    decodeStrList (Json.arr (l.map Json.str)) = some l := by
  have := mapM_map_encode Json.str
    (fun x => match x with | Json.str s => some s | _ => none)
    (by intro b; rfl) l
  simpa [decodeStrList] using this

theorem decodeBoundsDict_encode (d : List (String × (PFloat × PFloat))) :
    decodeBoundsDict (jsonBoundsDict d) = some d := by
  have := mapM_map_encode
    (fun kv : String × (PFloat × PFloat) =>
      (kv.1, Json.arr [jsonOfPF kv.2.1, jsonOfPF kv.2.2]))
    (fun kv =>
      match kv.2 with
      | Json.arr [a, b] => do
        let lo ← pfOfJson a
        let hi ← pfOfJson b
        some (kv.1, (lo, hi))
      | _ => none)
    (by rintro ⟨k, lo, hi⟩; cases lo <;> cases hi <;> rfl) d
  simpa [jsonBoundsDict, decodeBoundsDict] using this

theorem decodeHardDict_encode (d : List (String × (Option ℚ × Option ℚ))) :
    decodeHardDict (jsonHardDict d) = some d := by
  have := mapM_map_encode
    (fun kv : String × (Option ℚ × Option ℚ) =>
      (kv.1, Json.arr [jsonOfOptQ kv.2.1, jsonOfOptQ kv.2.2]))
    (fun kv =>
      match kv.2 with
      | Json.arr [a, b] => do
        let lo ← optQOfJson a
        let hi ← optQOfJson b
        some (kv.1, (lo, hi))
      | _ => none)
    (by rintro ⟨k, lo, hi⟩; cases lo <;> cases hi <;> rfl) d
  simpa [jsonHardDict, decodeHardDict] using this

/-- C2: Serializing any artifacts value with `save` (`to_json_str`) and
deserializing with `load` (`from_json_str`) reconstructs it field by field:
every dict key and float value (NaN included) round-trips, string lists
round-trip, and `None` entries of `hard_clip` are preserved as JSON `null`. -/
theorem artifacts_roundtrip :
    (∀ a : ImputationArtifacts, imputationFromJson (imputationToJson a) = some a) ∧
      (∀ a : OutlierArtifacts, outlierFromJson (outlierToJson a) = some a) ∧
      (∀ a : NormalizationArtifacts,
        normalizationFromJson (normalizationToJson a) = some a) := by
  refine ⟨fun a => ?_, fun a => ?_, fun a => ?_⟩
  · simp [imputationToJson, imputationFromJson, jsonGet, List.lookup,
      decodeFloatDict_encode, decodeStrList_encode]
  · simp [outlierToJson, outlierFromJson, jsonGet, List.lookup,
      decodeBoundsDict_encode, decodeHardDict_encode]
  · simp [normalizationToJson, normalizationFromJson, jsonGet, List.lookup,
      decodeFloatDict_encode]

theorem select_subset_header (t : Table) (cols : Option (List String)) (c : String)
    (h : c ∈ select t cols) : c ∈ t.header := by
  cases cols with
  | none =>
    simp only [select, List.mem_filter, decide_eq_true_eq] at h
    exact h.2
  | some cs =>
    simp only [select, List.mem_filter, decide_eq_true_eq] at h
    exact h.2

theorem ensureNumeric_id (t : Table) (cs : List String)
    (h : ∀ r ∈ t.rows, ∀ c ∈ cs, c ∈ keysRow r ∧ toNumeric (getCell r c) = getCell r c) :
    ensureNumeric t cs = t := by
  induction cs with
  | nil => rfl
  | cons c rest ih =>
    have hstep : (if c ∈ t.header then mapColTable t c toNumeric else t) = t := by
      by_cases hc : c ∈ t.header
      · rw [if_pos hc]
        have hrows : ∀ r ∈ t.rows, setCellRow r c (toNumeric (getCell r c)) = r := by
          intro r hr
          obtain ⟨hk, hnum⟩ := h r hr c (List.mem_cons_self _ _)
          rw [hnum, setCellRow_self _ _ hk]
        cases t with
        | mk hd rows =>
          simp only [mapColTable, Table.mk.injEq, true_and]
          calc rows.map (fun r => setCellRow r c (toNumeric (getCell r c)))
              = rows.map id := List.map_congr_left (fun r hr => hrows r hr)
            _ = rows := List.map_id _
      · rw [if_neg hc]
    show (c :: rest).foldl _ t = t
    rw [List.foldl_cons]
    show ensureNumeric (if c ∈ t.header then mapColTable t c toNumeric else t) rest = _
    rw [hstep]
    exact ih (fun r hr c' hc' => h r hr c' (List.mem_cons_of_mem _ hc'))

theorem groupAdd_mem {κ : Type} [DecidableEq κ] (g : List (κ × List String)) (k : κ)
    (c x : String) (kg : κ × List String) (hkg : kg ∈ groupAdd g k c) (hx : x ∈ kg.2) :
    (∃ kg' ∈ g, x ∈ kg'.2) ∨ x = c := by
  induction g with
  | nil =>
    simp only [groupAdd, List.mem_singleton] at hkg
    subst hkg
    simp only [List.mem_singleton] at hx
    exact Or.inr hx
  | cons p rest ih =>
    obtain ⟨pk, pcs⟩ := p
    by_cases h : pk = k
    · simp only [groupAdd, if_pos h, List.mem_cons] at hkg
      rcases hkg with hkg | hkg
      · subst hkg
        simp only [List.mem_append, List.mem_singleton] at hx
        rcases hx with hx | hx
        · exact Or.inl ⟨(pk, pcs), List.mem_cons_self _ _, hx⟩
        · exact Or.inr hx
      · exact Or.inl ⟨kg, List.mem_cons_of_mem _ hkg, hx⟩
    · simp only [groupAdd, if_neg h, List.mem_cons] at hkg
      rcases hkg with hkg | hkg
      · subst hkg
        exact Or.inl ⟨(pk, pcs), List.mem_cons_self _ _, hx⟩
      · rcases ih hkg with h2 | h2
        · obtain ⟨kg', hkg', hx'⟩ := h2
          exact Or.inl ⟨kg', List.mem_cons_of_mem _ hkg', hx'⟩
        · exact Or.inr h2

theorem groupFold_mem {κ : Type} [DecidableEq κ] (key : ColumnStrategy → κ)
    (p : ColumnStrategy → Prop) [DecidablePred p] (l : List String)
    (g : List (κ × List String)) (kg : κ × List String) (x : String)
    (hkg : kg ∈ l.foldl (fun g c =>
      match getStrategy c with
      | some s => if p s then groupAdd g (key s) c else g
      | none => g) g)
    (hx : x ∈ kg.2) :
    (∃ kg' ∈ g, x ∈ kg'.2) ∨ x ∈ l := by
  induction l generalizing g with
  | nil => exact Or.inl ⟨kg, hkg, hx⟩
  | cons a rest ih =>
    simp only [List.foldl_cons] at hkg
    rcases ih _ hkg with h | h
    · obtain ⟨kg', hkg', hx'⟩ := h
      cases hs : getStrategy a with
      | none =>
        simp only [hs] at hkg'
        exact Or.inl ⟨kg', hkg', hx'⟩
      | some s =>
        simp only [hs] at hkg'
        by_cases hp : p s
        · rw [if_pos hp] at hkg'
          rcases groupAdd_mem g (key s) a x kg' hkg' hx' with h2 | h2
          · exact Or.inl h2
          · exact Or.inr (h2 ▸ List.mem_cons_self _ _)
        · rw [if_neg hp] at hkg'
          exact Or.inl ⟨kg', hkg', hx'⟩
    · exact Or.inr (List.mem_cons_of_mem _ h)

theorem outlierNumericCols_subset (t : Table) (cols : Option (List String)) (c : String)
    (hc : c ∈ outlierNumericCols t cols) : c ∈ select t cols := by
  rw [outlierNumericCols, List.mem_dedup, List.mem_append, List.mem_append] at hc
  have hof : ∀ (g : List ((ℚ × ℚ) × List String)),
      c ∈ (g.map Prod.snd).flatten → ∃ kg ∈ g, c ∈ kg.2 := by
    intro g hg
    rw [List.mem_flatten] at hg
    obtain ⟨l, hl, hcl⟩ := hg
    rw [List.mem_map] at hl
    obtain ⟨kg, hkg, rfl⟩ := hl
    exact ⟨kg, hkg, hcl⟩
  have hofq : ∀ (g : List (ℚ × List String)),
      c ∈ (g.map Prod.snd).flatten → ∃ kg ∈ g, c ∈ kg.2 := by
    intro g hg
    rw [List.mem_flatten] at hg
    obtain ⟨l, hl, hcl⟩ := hg
    rw [List.mem_map] at hl
    obtain ⟨kg, hkg, rfl⟩ := hl
    exact ⟨kg, hkg, hcl⟩
  rcases hc with (hc | hc) | hc
  · obtain ⟨kg, hkg, hx⟩ := hof _ hc
    rcases groupFold_mem (fun s => (s.pctl_low, s.pctl_high))
      (fun s => s.outlier = .PCTL_CLIP ∨ s.outlier = .PCTL_FILTER) _ _ _ _ hkg hx with h | h
    · simp at h
    · exact h
  · obtain ⟨kg, hkg, hx⟩ := hof _ hc
    rcases groupFold_mem (fun s => (s.pctl_low, s.pctl_high))
      (fun s => s.outlier = .CLIP_THEN_PCTL_CLIP) _ _ _ _ hkg hx with h | h
    · simp at h
    · exact h
  · obtain ⟨kg, hkg, hx⟩ := hofq _ hc
    rcases groupFold_mem (fun s => s.iqr_k)
      (fun s => s.outlier = .IQR_FILTER) _ _ _ _ hkg hx with h | h
    · simp at h
    · exact h

/-- C6 counterexample: the claim says every fit operation leaves the input
table unchanged, including under numeric coercion of string-typed columns.
But `ensure_numeric` assigns `df[col] = dd.to_numeric(df[col], errors="coerce")`
on the caller's dataframe: fitting the imputer on a table whose `assets`
column holds the string "12" changes the caller's table (the cell becomes
the number 12). -/
theorem fit_mutates_input_counterexample :
    (fitImputer tC6 (some ["assets"])).snd ≠ tC6 := by decide

/-- C6 (amended): each fit operation returns a fresh artifacts value but
mutates the input table in place exactly by `ensure_numeric` coercion of its
policy-selected columns (string cells become parsed numbers or null); in
particular a table whose columns are already numeric — no string cells, each
row carrying its header keys — is left unchanged by all three fit
operations. -/
theorem fit_mutation_is_numeric_coercion :
    (∀ t cols, (fitImputer t cols).snd
        = ensureNumeric t ((imputerMedianCols t cols ++ imputerZeroCols t cols).dedup)) ∧
      (∀ t cols, (fitOutliers t cols).snd = ensureNumeric t (outlierNumericCols t cols)) ∧
      (∀ t cols, (fitNormalizer t cols).snd
        = ensureNumeric t
            ((logColsOf t cols ++ robustColsOf t cols ++ minmaxColsOf t cols).dedup)) ∧
      (∀ t cols,
        (∀ r ∈ t.rows, ∀ c ∈ t.header,
            c ∈ keysRow r ∧ toNumeric (getCell r c) = getCell r c) →
          (fitImputer t cols).snd = t ∧ (fitOutliers t cols).snd = t ∧
            (fitNormalizer t cols).snd = t) := by
  refine ⟨fun t cols => rfl, fun t cols => rfl, fun t cols => rfl, fun t cols h => ?_⟩
  have hid : ∀ cs : List String, (∀ c ∈ cs, c ∈ t.header) → ensureNumeric t cs = t :=
    fun cs hcs => ensureNumeric_id t cs (fun r hr c hc => h r hr c (hcs c hc))
  refine ⟨?_, ?_, ?_⟩
  · show ensureNumeric t _ = t
    refine hid _ (fun c hc => ?_)
    rw [List.mem_dedup, List.mem_append] at hc
    rcases hc with hc | hc
    · exact select_subset_header t cols c (List.mem_of_mem_filter hc)
    · exact select_subset_header t cols c (List.mem_of_mem_filter hc)
  · show ensureNumeric t _ = t
    exact hid _ (fun c hc =>
      select_subset_header t cols c (outlierNumericCols_subset t cols c hc))
  · show ensureNumeric t _ = t
    refine hid _ (fun c hc => ?_)
    rw [List.mem_dedup, List.mem_append, List.mem_append] at hc
    rcases hc with (hc | hc) | hc
    · exact select_subset_header t cols c (List.mem_of_mem_filter hc)
    · exact select_subset_header t cols c (List.mem_of_mem_filter hc)
    · exact select_subset_header t cols c (List.mem_of_mem_filter hc)

/-- Witness for the amended C6 theorem at a concrete numeric table. -/
theorem fit_mutation_is_numeric_coercion_witness :
    (fitImputer tW6 (some ["assets"])).snd = tW6 ∧
      (fitOutliers tW6 (some ["assets"])).snd = tW6 ∧
      (fitNormalizer tW6 (some ["assets"])).snd = tW6 :=
  fit_mutation_is_numeric_coercion.2.2.2 tW6 (some ["assets"]) (by decide)

theorem foldl_min_le_seed (v : ℚ) (vs : List ℚ) : vs.foldl min v ≤ v := by
  induction vs generalizing v with
  | nil => exact le_refl v
  | cons a rest ih =>
    calc rest.foldl min (min v a) ≤ min v a := ih _
      _ ≤ v := min_le_left _ _

theorem foldl_min_le (v : ℚ) (vs : List ℚ) (x : ℚ) (hx : x = v ∨ x ∈ vs) :
    vs.foldl min v ≤ x := by
  induction vs generalizing v with
  | nil =>
    rcases hx with hx | hx
    · exact hx ▸ le_refl _
    · simp at hx
  | cons a rest ih =>
    rw [List.foldl_cons]
    rcases hx with hx | hx
    · subst hx
      calc rest.foldl min (min x a) ≤ min x a := foldl_min_le_seed _ _
        _ ≤ x := min_le_left _ _
    · rw [List.mem_cons] at hx
      rcases hx with hx | hx
      · subst hx
        calc rest.foldl min (min v x) ≤ min v x := foldl_min_le_seed _ _
          _ ≤ x := min_le_right _ _
      · exact ih _ (Or.inr hx)

theorem mem_numVals (t : Table) (c : String) (r : Row) (hr : r ∈ t.rows) (v : ℚ)
    (hv : getCell r c = Cell.num v) : v ∈ numVals (colCells t c) := by
  rw [numVals, List.mem_filterMap]
  exact ⟨Cell.num v, by rw [colCells, List.mem_map]; exact ⟨r, hr, hv⟩, rfl⟩

theorem colMin_le (t : Table) (c : String) (m : ℚ) (hm : colMin t c = some m)
    (r : Row) (hr : r ∈ t.rows) (v : ℚ) (hv : getCell r c = Cell.num v) : m ≤ v := by
  have hvmem := mem_numVals t c r hr v hv
  cases hnv : numVals (colCells t c) with
  | nil => rw [hnv] at hvmem; simp at hvmem
  | cons v0 vs =>
    simp only [colMin, hnv, Option.some.injEq] at hm
    rw [hnv, List.mem_cons] at hvmem
    exact hm ▸ foldl_min_le v0 vs v hvmem

theorem colMin_none (t : Table) (c : String) (hm : colMin t c = none)
    (r : Row) (hr : r ∈ t.rows) (v : ℚ) (hv : getCell r c = Cell.num v) : False := by
  have hvmem := mem_numVals t c r hr v hv
  cases hnv : numVals (colCells t c) with
  | nil => rw [hnv] at hvmem; simp at hvmem
  | cons v0 vs => simp [colMin, hnv] at hm

theorem lookup_dictInsert_same {β : Type} (d : List (String × β)) (k : String) (v : β) :
    List.lookup k (dictInsert d k v) = some v := by
  induction d with
  | nil => simp [dictInsert, List.lookup]
  | cons p rest ih =>
    obtain ⟨pk, pv⟩ := p
    by_cases h : pk = k
    · simp [dictInsert, h, List.lookup]
    · have hbeq : (k == pk) = false := beq_eq_false_iff_ne.mpr (Ne.symm h)
      simp [dictInsert, h, List.lookup, hbeq, ih]

theorem lookup_dictInsert_ne {β : Type} (d : List (String × β)) (k k' : String) (v : β)
    (h : k ≠ k') : List.lookup k' (dictInsert d k v) = List.lookup k' d := by
  have hbeq : (k' == k) = false := beq_eq_false_iff_ne.mpr (Ne.symm h)
  induction d with
  | nil => simp [dictInsert, List.lookup, hbeq]
  | cons p rest ih =>
    obtain ⟨pk, pv⟩ := p
    by_cases h1 : pk = k
    · subst h1
      simp [dictInsert, List.lookup, hbeq]
    · cases hpk : (k' == pk) <;>
        simp [dictInsert, h1, List.lookup, hpk, ih]

theorem lookup_dictInsert_fold {β : Type} (f : String → β) (l : List String)
    (d : List (String × β)) (c : String) :
    List.lookup c (l.foldl (fun d x => dictInsert d x (f x)) d)
      = if c ∈ l then some (f c) else List.lookup c d := by
  induction l generalizing d with
  | nil => simp
  | cons a rest ih =>
    rw [List.foldl_cons]
    rw [ih (dictInsert d a (f a))]
    by_cases hc : c ∈ rest
    · rw [if_pos hc, if_pos (List.mem_cons_of_mem _ hc)]
    · rw [if_neg hc]
      by_cases hca : c = a
      · subst hca
        rw [lookup_dictInsert_same, if_pos (List.mem_cons_self _ _)]
      · rw [lookup_dictInsert_ne _ _ _ _ (Ne.symm hca),
          if_neg (by simp [hca, hc])]

/-- C7: For every log1p-policy column recorded by `fit_normalizer`, the
stored shift is `(−min) + 1` when the column's finite minimum is ≤ −1 and
`0` otherwise, so every value `v` observed during fitting (a numeric cell
of the fit table after coercion) satisfies `v + shift > −1`, keeping
`log1p(v + shift)` inside its domain. -/
theorem fit_normalizer_log1p_shift_safe (t : Table) (cols : Option (List String))
    (c : String) (sh : ℚ)
    (hc : List.lookup c (fitNormalizer t cols).fst.log1p_shift = some (some sh)) :
    (sh = match colMin (fitNormalizer t cols).snd c with
          | some m => if m ≤ -1 then (-m) + 1 else 0
          | none => 0) ∧
      ∀ r ∈ (fitNormalizer t cols).snd.rows, ∀ v : ℚ,
        getCell r c = Cell.num v → v + sh > -1 := by
  have hval : log1pShiftVal (fitNormalizer t cols).snd c = some sh := by
    rw [show (fitNormalizer t cols).fst.log1p_shift
        = ((logColsOf t cols).filter
            (fun x => decide (x ∈ (fitNormalizer t cols).snd.header))).foldl
          (fun d x => dictInsert d x (log1pShiftVal (fitNormalizer t cols).snd x)) []
      from rfl] at hc
    rw [lookup_dictInsert_fold (log1pShiftVal (fitNormalizer t cols).snd)] at hc
    by_cases hmem : c ∈ (logColsOf t cols).filter
        (fun x => decide (x ∈ (fitNormalizer t cols).snd.header))
    · rw [if_pos hmem] at hc
      exact Option.some_inj.mp hc
    · rw [if_neg hmem] at hc
      simp [List.lookup] at hc
  constructor
  · rw [log1pShiftVal] at hval
    cases hmin : colMin (fitNormalizer t cols).snd c with
    | some m =>
      simp only [hmin] at hval ⊢
      by_cases hm1 : m ≤ -1
      · simp only [if_pos hm1] at hval ⊢
        exact (Option.some_inj.mp hval).symm
      · simp only [if_neg hm1] at hval ⊢
        exact (Option.some_inj.mp hval).symm
    | none =>
      simp only [hmin] at hval ⊢
      exact (Option.some_inj.mp hval).symm
  · intro r hr v hv
    rw [log1pShiftVal] at hval
    cases hmin : colMin (fitNormalizer t cols).snd c with
    | none => exact ((colMin_none _ c hmin r hr v hv)).elim
    | some m =>
      have hle := colMin_le _ c m hmin r hr v hv
      simp only [hmin] at hval
      by_cases hm1 : m ≤ -1
      · simp only [if_pos hm1] at hval
        have hsh : sh = (-m) + 1 := (Option.some_inj.mp hval).symm
        rw [hsh]
        linarith
      · simp only [if_neg hm1] at hval
        have hsh : sh = 0 := (Option.some_inj.mp hval).symm
        rw [hsh]
        push_neg at hm1
        linarith

/-- Witness for the C7 theorem: fitting on a column with minimum −5 stores
shift 6 and every observed value satisfies `v + 6 > −1`. -/
theorem fit_normalizer_log1p_shift_safe_witness :
    (6 = match colMin (fitNormalizer tW7 (some ["assets"])).snd "assets" with
         | some m => if m ≤ -1 then (-m) + 1 else 0
         | none => 0) ∧
      ∀ r ∈ (fitNormalizer tW7 (some ["assets"])).snd.rows, ∀ v : ℚ,
        getCell r "assets" = Cell.num v → v + 6 > -1 :=
  fit_normalizer_log1p_shift_safe tW7 (some ["assets"]) "assets" 6 (by decide)

theorem foldl_guard_mapCol_prop {α : Type} (key : α → String) (fn : α → Cell → Cell)
    (P : List String → α → Prop) [inst : ∀ h a, Decidable (P h a)] (l : List α)
    (t : Table) :
    l.foldl (fun t a => if P t.header a then mapColTable t (key a) (fn a) else t) t
      = mapOps ((l.filter (fun a => decide (P t.header a))).map
          (fun a => (key a, fn a))) t := by
  induction l generalizing t with
  | nil => simp [mapOps_nil]
  | cons a rest ih =>
    simp only [List.foldl_cons]
    by_cases h : P t.header a
    · rw [if_pos h, ih, header_mapColTable, mapColTable_eq_mapOps, mapOps_mapOps]
      simp [List.filter_cons, h]
    · rw [if_neg h, ih]
      simp [List.filter_cons, h]

theorem ensureNumeric_eq_mapOps (t : Table) (cs : List String) :
    ensureNumeric t cs
      = mapOps ((cs.filter (fun c => decide (c ∈ t.header))).map
          (fun c => (c, toNumeric))) t :=
  foldl_guard_mapCol_prop (fun c => c) (fun _ => toNumeric) (fun h c => c ∈ h) cs t

theorem header_ensureNumeric (t : Table) (cs : List String) :
    (ensureNumeric t cs).header = t.header := by
  rw [ensureNumeric_eq_mapOps]
  rfl

theorem outlierPreStage_eq_mapOps (art : OutlierArtifacts) (t : Table)
    (cols : Option (List String)) :
    outlierPreStage art t cols
      = mapOps (outlierCoerceOps art t cols
          ++ hardClipOps art t.header (select t cols)) t := by
  have h2 := foldl_guard_mapCol_prop (fun e : String × (Option ℚ × Option ℚ) => e.1)
      (fun e => clipCell e.2.1 e.2.2)
      (fun h e => e.1 ∈ h ∧ e.1 ∈ select t cols ∧ (e.2.1 ≠ none ∨ e.2.2 ≠ none))
      art.hard_clip
      (ensureNumeric t
        (((art.pctl_bounds.map Prod.fst ++ art.iqr_bounds.map Prod.fst).dedup).filter
          (fun c => decide (c ∈ t.header ∧ c ∈ select t cols))))
  simp only [header_ensureNumeric] at h2
  refine h2.trans ?_
  rw [ensureNumeric_eq_mapOps, mapOps_mapOps]
  rfl

theorem handleOutliers_clip_eq (art : OutlierArtifacts) (t : Table)
    (cols : Option (List String)) :
    handleOutliers art t cols "clip"
      = Except.ok (mapOps (outlierCoerceOps art t cols
          ++ hardClipOps art t.header (select t cols)
          ++ pctlClipOps art t.header (select t cols)
          ++ iqrClipOps art t.header (select t cols)) t) := by
  have hpre := outlierPreStage_eq_mapOps art t cols
  have h3 := foldl_guard_mapCol_prop (fun e : String × (PFloat × PFloat) => e.1)
      (fun e => clipCell e.2.1 e.2.2)
      (fun h e => e.1 ∈ h ∧ e.1 ∈ select t cols)
      art.pctl_bounds (outlierPreStage art t cols)
  have hpreh : (outlierPreStage art t cols).header = t.header := by
    rw [hpre]; rfl
  simp only [hpreh] at h3
  have h4 := foldl_guard_mapCol_prop (fun e : String × (PFloat × PFloat) => e.1)
      (fun e => clipCell e.2.1 e.2.2)
      (fun h e => e.1 ∈ h ∧ e.1 ∈ select t cols)
      art.iqr_bounds
      (art.pctl_bounds.foldl (fun t' e =>
        if e.1 ∈ t'.header ∧ e.1 ∈ select t cols then
          mapColTable t' e.1 (clipCell e.2.1 e.2.2)
        else t') (outlierPreStage art t cols))
  rw [h3] at h4
  have hh : (mapOps ((art.pctl_bounds.filter
      (fun e => decide (e.1 ∈ t.header ∧ e.1 ∈ select t cols))).map
        (fun e => (e.1, clipCell e.2.1 e.2.2))) (outlierPreStage art t cols)).header
      = t.header := by
    rw [hpre]; rfl
  simp only [hh] at h4
  show Except.ok _ = _
  rw [h3, h4, hpre, mapOps_mapOps, mapOps_mapOps]
  simp [pctlClipOps, iqrClipOps, List.append_assoc]

theorem handleOutliers_drop_eq (art : OutlierArtifacts) (t : Table)
    (cols : Option (List String)) :
    handleOutliers art t cols "drop"
      = Except.ok
          { header := t.header,
            rows := (outlierPreStage art t cols).rows.filter
              (fun r => (dropPreds art t.header (select t cols)).all
                (fun p => p r)) } := by
  have hpreh : (outlierPreStage art t cols).header = t.header := by
    rw [outlierPreStage_eq_mapOps]; rfl
  rw [show handleOutliers art t cols "drop"
      = (if (dropPreds art (outlierPreStage art t cols).header (select t cols)).isEmpty
         then Except.ok (outlierPreStage art t cols)
         else Except.ok
           { header := (outlierPreStage art t cols).header,
             rows := (outlierPreStage art t cols).rows.filter
               (fun r => (dropPreds art (outlierPreStage art t cols).header
                 (select t cols)).all (fun p => p r)) }) from rfl]
  simp only [hpreh]
  by_cases hp : (dropPreds art t.header (select t cols)).isEmpty
  · rw [if_pos hp]
    have hpe : dropPreds art t.header (select t cols) = [] := by
      simpa using hp
    rw [hpe]
    simp only [List.all_nil, List.filter_true]
    rw [show ({ header := t.header, rows := (outlierPreStage art t cols).rows } : Table)
        = { header := (outlierPreStage art t cols).header,
            rows := (outlierPreStage art t cols).rows } from by rw [hpreh]]
  · rw [if_neg hp]

theorem lookup_mem {β : Type} (l : List (String × β)) (k : String) (v : β)
    (h : List.lookup k l = some v) : (k, v) ∈ l := by
  induction l with
  | nil => simp [List.lookup] at h
  | cons p rest ih =>
    obtain ⟨pk, pv⟩ := p
    cases hb : (k == pk) with
    | true =>
      have hk : k = pk := by simpa using hb
      simp only [List.lookup, hb] at h
      subst hk
      rw [Option.some_inj] at h
      subst h
      exact List.mem_cons_self _ _
    | false =>
      simp only [List.lookup, hb] at h
      exact List.mem_cons_of_mem _ (ih h)

/-- C5: In drop mode, `handle_outliers` never increases the row count, and
every surviving row satisfies, for every targeted column carrying fitted
percentile or IQR bounds `(lo, hi)`, that its value in that column is null
or lies within `[lo, hi]`; a row failing any one applicable check is
excluded (the row masks are conjoined). -/
theorem handle_outliers_drop_sound (art : OutlierArtifacts) (t : Table)
    (cols : Option (List String)) (t' : Table)
    (hok : handleOutliers art t cols "drop" = Except.ok t') :
    t'.rows.length ≤ t.rows.length ∧
      ∀ r' ∈ t'.rows, ∀ c : String, ∀ lo hi : ℚ,
        (List.lookup c art.pctl_bounds = some (some lo, some hi)
          ∨ List.lookup c art.iqr_bounds = some (some lo, some hi)) →
        c ∈ select t cols →
        getCell r' c = Cell.null ∨
          ∃ v : ℚ, getCell r' c = Cell.num v ∧ lo ≤ v ∧ v ≤ hi := by
  rw [handleOutliers_drop_eq] at hok
  rw [Except.ok.injEq] at hok
  subst hok
  constructor
  · have hlen : (outlierPreStage art t cols).rows.length = t.rows.length := by
      rw [outlierPreStage_eq_mapOps]
      simp [mapOps]
    calc ((outlierPreStage art t cols).rows.filter _).length
        ≤ (outlierPreStage art t cols).rows.length := List.length_filter_le _ _
      _ = t.rows.length := hlen
  · intro r' hr' c lo hi hb hsel
    have hchead : c ∈ t.header := select_subset_header t cols c hsel
    rw [show ({ header := t.header,
                rows := (outlierPreStage art t cols).rows.filter
                  (fun r => (dropPreds art t.header (select t cols)).all
                    (fun p => p r)) } : Table).rows
        = (outlierPreStage art t cols).rows.filter
            (fun r => (dropPreds art t.header (select t cols)).all (fun p => p r))
      from rfl] at hr'
    rw [List.mem_filter] at hr'
    obtain ⟨hrpre, hall⟩ := hr'
    have hpred : (fun r => betweenCell (some lo) (some hi) (getCell r c)
        || isnaCell (getCell r c)) ∈ dropPreds art t.header (select t cols) := by
      rcases hb with hb | hb
      · have hmem := lookup_mem _ _ _ hb
        refine List.mem_append_left _ ?_
        rw [List.mem_map]
        refine ⟨(c, (some lo, some hi)), ?_, rfl⟩
        rw [List.mem_filter]
        exact ⟨hmem, by simp [hchead, hsel]⟩
      · have hmem := lookup_mem _ _ _ hb
        refine List.mem_append_right _ ?_
        rw [List.mem_map]
        refine ⟨(c, (some lo, some hi)), ?_, rfl⟩
        rw [List.mem_filter]
        exact ⟨hmem, by simp [hchead, hsel]⟩
    have hp := List.all_eq_true.mp hall _ hpred
    cases hcell : getCell r' c with
    | null => exact Or.inl rfl
    | num v =>
      rw [hcell] at hp
      simp only [betweenCell, isnaCell] at hp
      simp at hp
      exact Or.inr ⟨v, rfl, hp⟩
    | str s =>
      rw [hcell] at hp
      simp [betweenCell, isnaCell] at hp

/-- Witness for the C5 theorem at a concrete table: drop mode keeps 2 of 3
rows and every surviving value is within the fitted bounds or null. -/
theorem handle_outliers_drop_sound_witness :
    tC5'.rows.length ≤ tC5.rows.length ∧
      ∀ r' ∈ tC5'.rows, ∀ c : String, ∀ lo hi : ℚ,
        (List.lookup c artC5.pctl_bounds = some (some lo, some hi)
          ∨ List.lookup c artC5.iqr_bounds = some (some lo, some hi)) →
        c ∈ select tC5 (some ["roe"]) →
        getCell r' c = Cell.null ∨
          ∃ v : ℚ, getCell r' c = Cell.num v ∧ lo ≤ v ∧ v ≤ hi :=
  handle_outliers_drop_sound artC5 tC5 (some ["roe"]) tC5' (by rfl)

/-- C10: In drop mode, hard-clip bounds are applied by clipping the values
before any drop mask is computed, so a value violating only its column's
hard bounds never causes its row to be removed: any row of the hard-clipped
table that passes every fitted percentile/IQR mask (evaluated on the
already-hard-clipped values) survives into the result. -/
theorem drop_mode_ignores_hard_bounds (art : OutlierArtifacts) (t : Table)
    (cols : Option (List String)) (t' : Table)
    (hok : handleOutliers art t cols "drop" = Except.ok t')
    (r : Row) (hr : r ∈ (outlierPreStage art t cols).rows)
    (hpass : (dropPreds art t.header (select t cols)).all (fun p => p r) = true) :
    r ∈ t'.rows := by
  rw [handleOutliers_drop_eq, Except.ok.injEq] at hok
  subst hok
  exact List.mem_filter.mpr ⟨hr, hpass⟩

/-- Witness for the C10 theorem: the row whose raw value 150 violates only
the hard bounds is clipped to 100 and survives drop mode. -/
theorem drop_mode_ignores_hard_bounds_witness : rC10 ∈ tC10'.rows :=
  drop_mode_ignores_hard_bounds artC10 tC10 (some ["p"]) tC10' (by rfl) rC10
    (by decide) (by decide)

theorem opsFor_append (o1 o2 : List (String × (Cell → Cell))) (c : String) :
    opsFor (o1 ++ o2) c = opsFor o1 c ++ opsFor o2 c := by
  simp [opsFor, List.filter_append]

theorem composeCell_append (f1 f2 : List (Cell → Cell)) (x : Cell) :
    composeCell (f1 ++ f2) x = composeCell f2 (composeCell f1 x) := by
  simp [composeCell, List.foldl_append]

theorem opsFor_keyed {β : Type} (l : List (String × β)) (F : String × β → Cell → Cell)
    (c : String) :
    opsFor (l.map (fun e => (e.1, F e))) c
      = (l.filter (fun e => decide (e.1 = c))).map F := by
  rw [opsFor, List.filter_map, List.map_map]
  rfl

theorem lookup_none_not_key {β : Type} (l : List (String × β)) (c : String)
    (h : List.lookup c l = none) : ∀ v : β, (c, v) ∉ l := by
  intro v hmem
  induction l with
  | nil => simp at hmem
  | cons p rest ih =>
    obtain ⟨pk, pv⟩ := p
    rw [List.mem_cons] at hmem
    cases hb : (c == pk) with
    | true => simp [List.lookup, hb] at h
    | false =>
      simp only [List.lookup, hb] at h
      rcases hmem with hmem | hmem
      · have : c = pk := congrArg Prod.fst hmem
        rw [this] at hb
        simp at hb
      · exact ih h hmem

theorem filter_key_nil {β : Type} (l : List (String × β)) (c : String)
    (h : ∀ v : β, (c, v) ∉ l) :
    l.filter (fun e => decide (e.1 = c)) = [] := by
  induction l with
  | nil => rfl
  | cons p rest ih =>
    obtain ⟨pk, pv⟩ := p
    have hne : pk ≠ c := by
      intro he
      exact h pv (by rw [← he]; exact List.mem_cons_self _ _)
    rw [List.filter_cons, if_neg (by simp [hne])]
    exact ih (fun v hv => h v (List.mem_cons_of_mem _ hv))

theorem filter_key_unique {β : Type} (l : List (String × β)) (c : String) (v : β)
    (hnd : (l.map Prod.fst).Nodup) (hl : List.lookup c l = some v) :
    l.filter (fun e => decide (e.1 = c)) = [(c, v)] := by
  induction l with
  | nil => simp [List.lookup] at hl
  | cons p rest ih =>
    obtain ⟨pk, pv⟩ := p
    rw [List.map_cons, List.nodup_cons] at hnd
    cases hb : (c == pk) with
    | true =>
      have hc : c = pk := by simpa using hb
      subst hc
      simp only [List.lookup, hb] at hl
      rw [Option.some_inj] at hl
      subst hl
      have hrest : rest.filter (fun e => decide (e.1 = c)) = [] := by
        refine filter_key_nil rest c (fun w hw => ?_)
        exact hnd.1 (by rw [List.mem_map]; exact ⟨(c, w), hw, rfl⟩)
      rw [List.filter_cons, if_pos (by simp), hrest]
    | false =>
      have hc : pk ≠ c := by
        intro he
        rw [he] at hb
        simp at hb
      simp only [List.lookup, hb] at hl
      rw [List.filter_cons, if_neg (by simp [hc])]
      exact ih hnd.2 hl

theorem clipCell_num_bounds (lo hi : ℚ) (x : Cell) (v : ℚ) (hlh : lo ≤ hi)
    (h : clipCell (some lo) (some hi) x = Cell.num v) : lo ≤ v ∧ v ≤ hi := by
  cases x with
  | null => simp [clipCell] at h
  | str s => simp [clipCell] at h
  | num w =>
    simp only [clipCell, Cell.num.injEq] at h
    subst h
    exact ⟨le_min (le_max_right w lo) hlh, min_le_right _ _⟩

theorem composeCell_null (fs : List (Cell → Cell))
    (h : ∀ f ∈ fs, f Cell.null = Cell.null) : composeCell fs Cell.null = Cell.null := by
  induction fs with
  | nil => rfl
  | cons f rest ih =>
    show composeCell rest (f Cell.null) = Cell.null
    rw [h f (List.mem_cons_self _ _)]
    exact ih (fun g hg => h g (List.mem_cons_of_mem _ hg))

theorem mem_opsFor (ops : List (String × (Cell → Cell))) (c : String)
    (f : Cell → Cell) (hf : f ∈ opsFor ops c) : ∃ op ∈ ops, op.2 = f := by
  rw [opsFor] at hf
  obtain ⟨op, hop, rfl⟩ := List.mem_map.mp hf
  exact ⟨op, List.mem_of_mem_filter hop, rfl⟩

/-- C4: After `handle_outliers(mode="clip")`, every non-null value of a
targeted column carrying fitted percentile bounds (no IQR entry, as
`fit_outliers` keys each column under exactly one policy) or fitted IQR
bounds `(lo, hi)` with `lo ≤ hi` (true of all fitted bounds, since quantiles
are monotone and IQR bounds widen the quartiles) lies within `[lo, hi]`
inclusive, and null cells pass through unaffected row by row. -/
theorem handle_outliers_clip_within_bounds (art : OutlierArtifacts) (t : Table)
    (cols : Option (List String)) (t' : Table) (c : String) (lo hi : ℚ)
    (hok : handleOutliers art t cols "clip" = Except.ok t')
    (hsel : c ∈ select t cols) (hlh : lo ≤ hi)
    (hb : (List.lookup c art.pctl_bounds = some (some lo, some hi)
            ∧ List.lookup c art.iqr_bounds = none
            ∧ (art.pctl_bounds.map Prod.fst).Nodup)
          ∨ (List.lookup c art.iqr_bounds = some (some lo, some hi)
            ∧ (art.iqr_bounds.map Prod.fst).Nodup)) :
    (∀ r' ∈ t'.rows, ∀ v : ℚ, getCell r' c = Cell.num v → lo ≤ v ∧ v ≤ hi) ∧
      (∀ i : ℕ, ∀ r r' : Row, t.rows[i]? = some r → t'.rows[i]? = some r' →
        getCell r c = Cell.null → getCell r' c = Cell.null) := by
  rw [handleOutliers_clip_eq, Except.ok.injEq] at hok
  subst hok
  have hchead : c ∈ t.header := select_subset_header t cols c hsel
  have hdecomp : ∀ r : Row,
      getCell (applyOps (outlierCoerceOps art t cols
        ++ hardClipOps art t.header (select t cols)
        ++ pctlClipOps art t.header (select t cols)
        ++ iqrClipOps art t.header (select t cols)) r) c
      = composeCell (opsFor (iqrClipOps art t.header (select t cols)) c)
          (composeCell (opsFor (pctlClipOps art t.header (select t cols)) c)
            (composeCell (opsFor (outlierCoerceOps art t cols
              ++ hardClipOps art t.header (select t cols)) c) (getCell r c))) := by
    intro r
    rw [getCell_applyOps, opsFor_append, opsFor_append, composeCell_append,
      composeCell_append]
  constructor
  · intro r' hr' v hv
    rw [show (mapOps (outlierCoerceOps art t cols
        ++ hardClipOps art t.header (select t cols)
        ++ pctlClipOps art t.header (select t cols)
        ++ iqrClipOps art t.header (select t cols)) t).rows
      = t.rows.map (applyOps (outlierCoerceOps art t cols
        ++ hardClipOps art t.header (select t cols)
        ++ pctlClipOps art t.header (select t cols)
        ++ iqrClipOps art t.header (select t cols))) from rfl, List.mem_map] at hr'
    obtain ⟨r, hr, rfl⟩ := hr'
    rw [hdecomp r] at hv
    rcases hb with ⟨hp, hiqr, hnd⟩ | ⟨hiq, hnd⟩
    · have hiqrops : opsFor (iqrClipOps art t.header (select t cols)) c = [] := by
        rw [iqrClipOps, opsFor_keyed]
        rw [filter_key_nil _ _ (fun w hw =>
          lookup_none_not_key _ _ hiqr w (List.mem_of_mem_filter hw))]
        rfl
      have hpctlops : opsFor (pctlClipOps art t.header (select t cols)) c
          = [clipCell (some lo) (some hi)] := by
        rw [pctlClipOps, opsFor_keyed]
        have hcomm : (art.pctl_bounds.filter
              (fun e => decide (e.1 ∈ t.header ∧ e.1 ∈ select t cols))).filter
              (fun e => decide (e.1 = c))
            = (art.pctl_bounds.filter (fun e => decide (e.1 = c))).filter
              (fun e => decide (e.1 ∈ t.header ∧ e.1 ∈ select t cols)) := by
          rw [List.filter_filter, List.filter_filter]
          exact List.filter_congr (fun a _ => Bool.and_comm _ _)
        rw [hcomm, filter_key_unique _ _ _ hnd hp]
        rw [List.filter_cons, if_pos (by simp [hchead, hsel])]
        rfl
      rw [hiqrops, hpctlops] at hv
      simp only [composeCell, List.foldl_cons, List.foldl_nil] at hv
      exact clipCell_num_bounds lo hi _ v hlh hv
    · have hiqrops : opsFor (iqrClipOps art t.header (select t cols)) c
          = [clipCell (some lo) (some hi)] := by
        rw [iqrClipOps, opsFor_keyed]
        have hcomm : (art.iqr_bounds.filter
              (fun e => decide (e.1 ∈ t.header ∧ e.1 ∈ select t cols))).filter
              (fun e => decide (e.1 = c))
            = (art.iqr_bounds.filter (fun e => decide (e.1 = c))).filter
              (fun e => decide (e.1 ∈ t.header ∧ e.1 ∈ select t cols)) := by
          rw [List.filter_filter, List.filter_filter]
          exact List.filter_congr (fun a _ => Bool.and_comm _ _)
        rw [hcomm, filter_key_unique _ _ _ hnd hiq]
        rw [List.filter_cons, if_pos (by simp [hchead, hsel])]
        rfl
      rw [hiqrops] at hv
      simp only [composeCell, List.foldl_cons, List.foldl_nil] at hv
      exact clipCell_num_bounds lo hi _ v hlh hv
  · intro i r r' hri hri' hnull
    have hopsnull : ∀ op ∈ (outlierCoerceOps art t cols
        ++ hardClipOps art t.header (select t cols)
        ++ pctlClipOps art t.header (select t cols)
        ++ iqrClipOps art t.header (select t cols)),
        op.2 Cell.null = Cell.null := by
      intro op hop
      rcases List.mem_append.mp hop with hop | hop
      · rcases List.mem_append.mp hop with hop | hop
        · rcases List.mem_append.mp hop with hop | hop
          · obtain ⟨e, _, rfl⟩ := List.mem_map.mp hop
            rfl
          · obtain ⟨e, _, rfl⟩ := List.mem_map.mp hop
            rfl
        · obtain ⟨e, _, rfl⟩ := List.mem_map.mp hop
          rfl
      · obtain ⟨e, _, rfl⟩ := List.mem_map.mp hop
        rfl
    rw [show (mapOps (outlierCoerceOps art t cols
        ++ hardClipOps art t.header (select t cols)
        ++ pctlClipOps art t.header (select t cols)
        ++ iqrClipOps art t.header (select t cols)) t).rows
      = t.rows.map (applyOps (outlierCoerceOps art t cols
        ++ hardClipOps art t.header (select t cols)
        ++ pctlClipOps art t.header (select t cols)
        ++ iqrClipOps art t.header (select t cols))) from rfl] at hri'
    rw [List.getElem?_map, hri] at hri'
    rw [Option.map_some', Option.some_inj] at hri'
    subst hri'
    rw [getCell_applyOps, hnull]
    refine composeCell_null _ (fun f hf => ?_)
    obtain ⟨op, hop, rfl⟩ := mem_opsFor _ _ _ hf
    exact hopsnull op hop

/-- Witness for the C4 theorem at a concrete table: after clipping, every
non-null `roe` value lies in [1, 3] and the null row stays null. -/
theorem handle_outliers_clip_within_bounds_witness :
    (∀ r' ∈ tC4'.rows, ∀ v : ℚ, getCell r' "roe" = Cell.num v → 1 ≤ v ∧ v ≤ 3) ∧
      (∀ i : ℕ, ∀ r r' : Row, tC4.rows[i]? = some r → tC4'.rows[i]? = some r' →
        getCell r "roe" = Cell.null → getCell r' "roe" = Cell.null) :=
  handle_outliers_clip_within_bounds artC4 tC4 (some ["roe"]) tC4' "roe" 1 3 (by rfl)
    (by decide) (by decide) (Or.inl ⟨by decide, by decide, by decide⟩)

theorem header_mapOps (ops : List (String × (Cell → Cell))) (t : Table) :
    (mapOps ops t).header = t.header := rfl

theorem impute_eq_mapOps (art : ImputationArtifacts) (t : Table)
    (cols : Option (List String)) :
    impute art t cols
      = mapOps (imputeFillOps art
          (addIndicators art.add_missing_indicator (select t cols) t).header
          (select t cols))
          (addIndicators art.add_missing_indicator (select t cols) t) := by
  have h3 := foldl_guard_mapCol_prop (fun cm : String × PFloat => cm.1)
      (fun cm => fillCell cm.2)
      (fun h cm => cm.1 ∈ h ∧ cm.1 ∈ select t cols)
      art.medians
      (ensureNumeric (addIndicators art.add_missing_indicator (select t cols) t)
        (((art.medians.map Prod.fst ++ art.zero_fill).dedup).filter
          (fun c => decide (c ∈ (addIndicators art.add_missing_indicator
            (select t cols) t).header ∧ c ∈ select t cols))))
  have h4 := foldl_guard_mapCol_prop (fun c : String => c)
      (fun _ => fillCell (some 0))
      (fun h c => c ∈ h ∧ c ∈ select t cols)
      art.zero_fill
      (art.medians.foldl
        (fun tt cm =>
          if cm.1 ∈ tt.header ∧ cm.1 ∈ select t cols then
            mapColTable tt cm.1 (fillCell cm.2)
          else tt)
        (ensureNumeric (addIndicators art.add_missing_indicator (select t cols) t)
          (((art.medians.map Prod.fst ++ art.zero_fill).dedup).filter
            (fun c => decide (c ∈ (addIndicators art.add_missing_indicator
              (select t cols) t).header ∧ c ∈ select t cols)))))
  rw [h3] at h4
  simp only [header_mapOps, header_ensureNumeric] at h3 h4
  rw [show impute art t cols
      = art.zero_fill.foldl
          (fun tt c =>
            if c ∈ tt.header ∧ c ∈ select t cols then
              mapColTable tt c (fillCell (some 0))
            else tt)
          (art.medians.foldl
            (fun tt cm =>
              if cm.1 ∈ tt.header ∧ cm.1 ∈ select t cols then
                mapColTable tt cm.1 (fillCell cm.2)
              else tt)
            (ensureNumeric (addIndicators art.add_missing_indicator (select t cols) t)
              (((art.medians.map Prod.fst ++ art.zero_fill).dedup).filter
                (fun c => decide (c ∈ (addIndicators art.add_missing_indicator
                  (select t cols) t).header ∧ c ∈ select t cols)))))
    from rfl]
  rw [h3, h4, ensureNumeric_eq_mapOps, mapOps_mapOps, mapOps_mapOps]
  simp [imputeFillOps, List.append_assoc]

theorem notStr_toNumeric (x : Cell) : notStr (toNumeric x) := by
  cases x with
  | null => exact Or.inl rfl
  | num q => exact Or.inr ⟨q, rfl⟩
  | str s =>
    rw [toNumeric]
    cases parseFloatQ s with
    | none => exact Or.inl rfl
    | some q => exact Or.inr ⟨q, rfl⟩

theorem toNumeric_id_of_notStr (x : Cell) (h : notStr x) : toNumeric x = x := by
  rcases h with h | ⟨q, h⟩ <;> subst h <;> rfl

theorem notStr_fillCell (m : PFloat) (x : Cell) (h : notStr x) :
    notStr (fillCell m x) := by
  rcases h with h | ⟨q, h⟩ <;> subst h
  · cases m with
    | none => exact Or.inl rfl
    | some q => exact Or.inr ⟨q, rfl⟩
  · exact Or.inr ⟨q, rfl⟩

theorem fillCell_num (m : PFloat) (q : ℚ) : fillCell m (Cell.num q) = Cell.num q := rfl

theorem fillCell_id_of_num (m : PFloat) (x : Cell) (q : ℚ) (h : x = Cell.num q) :
    fillCell m x = x := by
  subst h
  rfl

theorem composeCell_preserve (P : Cell → Prop) (l : List (Cell → Cell))
    (hl : ∀ f ∈ l, ∀ x, P x → P (f x)) (x : Cell) (hx : P x) :
    P (composeCell l x) := by
  induction l generalizing x with
  | nil => exact hx
  | cons f rest ih =>
    show P (composeCell rest (f x))
    exact ih (fun g hg => hl g (List.mem_cons_of_mem _ hg)) _
      (hl f (List.mem_cons_self _ _) x hx)

theorem composeCell_num_of_num (l : List (Cell → Cell))
    (hl : ∀ f ∈ l, ∀ q : ℚ, ∃ q' : ℚ, f (Cell.num q) = Cell.num q') (q : ℚ) :
    ∃ q' : ℚ, composeCell l (Cell.num q) = Cell.num q' := by
  induction l generalizing q with
  | nil => exact ⟨q, rfl⟩
  | cons f rest ih =>
    obtain ⟨q1, hq1⟩ := hl f (List.mem_cons_self _ _) q
    show ∃ q', composeCell rest (f (Cell.num q)) = Cell.num q'
    rw [hq1]
    exact ih (fun g hg => hl g (List.mem_cons_of_mem _ hg)) q1

theorem composeCell_toNumerics_notStr (l : List (Cell → Cell)) (hne : l ≠ [])
    (hl : ∀ f ∈ l, f = toNumeric) (x : Cell) : notStr (composeCell l x) := by
  cases l with
  | nil => exact absurd rfl hne
  | cons f rest =>
    show notStr (composeCell rest (f x))
    refine composeCell_preserve notStr rest (fun g hg y hy => ?_) _ ?_
    · rw [hl g (List.mem_cons_of_mem _ hg)]
      exact notStr_toNumeric y
    · rw [hl f (List.mem_cons_self _ _)]
      exact notStr_toNumeric x

theorem mem_opsFor_of (ops : List (String × (Cell → Cell))) (c : String)
    (f : Cell → Cell) (h : (c, f) ∈ ops) : f ∈ opsFor ops c := by
  rw [opsFor, List.mem_map]
  exact ⟨(c, f), List.mem_filter.mpr ⟨h, by simp⟩, rfl⟩

theorem opsFor_eq_nil (ops : List (String × (Cell → Cell))) (c : String)
    (h : ∀ op ∈ ops, op.1 ≠ c) : opsFor ops c = [] := by
  rw [opsFor]
  rw [List.filter_eq_nil_iff.mpr (fun op hop => by simp [h op hop])]
  rfl

theorem header_indicator_step_mono (target : List String) (t : Table) (a c : String)
    (hc : c ∈ t.header) :
    c ∈ (if a ∈ t.header ∧ a ∈ target then addMissingIndicatorCol t a else t).header := by
  by_cases hg : a ∈ t.header ∧ a ∈ target
  · rw [if_pos hg]
    simp only [addMissingIndicatorCol]
    by_cases hi : a ++ "__is_missing" ∈ t.header
    · rw [if_pos hi]
      exact hc
    · rw [if_neg hi]
      exact List.mem_append_left _ hc
  · rw [if_neg hg]
    exact hc

theorem header_addIndicators_mono (ami target : List String) (t : Table) (c : String)
    (hc : c ∈ t.header) : c ∈ (addIndicators ami target t).header := by
  induction ami generalizing t with
  | nil => exact hc
  | cons a rest ih =>
    rw [addIndicators, List.foldl_cons]
    exact ih _ (header_indicator_step_mono target t a c hc)

theorem header_addIndicators_cases (ami target : List String) (t : Table) (c : String)
    (hc : c ∈ (addIndicators ami target t).header) :
    c ∈ t.header ∨ ∃ x ∈ ami, c = x ++ "__is_missing" := by
  induction ami generalizing t with
  | nil => exact Or.inl hc
  | cons a rest ih =>
    rw [addIndicators, List.foldl_cons] at hc
    rcases ih _ hc with h | ⟨x, hx, hxe⟩
    · by_cases hg : a ∈ t.header ∧ a ∈ target
      · rw [if_pos hg] at h
        simp only [addMissingIndicatorCol] at h
        by_cases hi : a ++ "__is_missing" ∈ t.header
        · rw [if_pos hi] at h
          exact Or.inl h
        · rw [if_neg hi] at h
          rcases List.mem_append.mp h with h | h
          · exact Or.inl h
          · exact Or.inr ⟨a, List.mem_cons_self _ _, by simpa using h⟩
      · rw [if_neg hg] at h
        exact Or.inl h
    · exact Or.inr ⟨x, List.mem_cons_of_mem _ hx, hxe⟩

theorem addIndicators_processed (ami target : List String) (t : Table) (c : String)
    (hc : c ∈ ami) (hh : c ∈ t.header) (ht : c ∈ target) :
    c ++ "__is_missing" ∈ (addIndicators ami target t).header := by
  induction ami generalizing t with
  | nil => simp at hc
  | cons a rest ih =>
    rw [addIndicators, List.foldl_cons]
    rcases List.mem_cons.mp hc with hce | hcr
    · subst hce
      have hind : c ++ "__is_missing"
          ∈ (if c ∈ t.header ∧ c ∈ target then addMissingIndicatorCol t c else t).header := by
        rw [if_pos ⟨hh, ht⟩]
        simp only [addMissingIndicatorCol]
        by_cases hi : c ++ "__is_missing" ∈ t.header
        · rw [if_pos hi]
          exact hi
        · rw [if_neg hi]
          exact List.mem_append_right _ (List.mem_singleton.mpr rfl)
      exact header_addIndicators_mono rest target _ _ hind
    · exact ih _ hcr (header_indicator_step_mono target t a c hh)

theorem addIndicators_id (ami target : List String) (t : Table)
    (h : ∀ c ∈ ami, c ∈ t.header → c ∈ target → (c ++ "__is_missing") ∈ t.header) :
    addIndicators ami target t = t := by
  induction ami with
  | nil => rfl
  | cons a rest ih =>
    rw [addIndicators, List.foldl_cons]
    have hstep : (if a ∈ t.header ∧ a ∈ target then addMissingIndicatorCol t a else t) = t := by
      by_cases hg : a ∈ t.header ∧ a ∈ target
      · rw [if_pos hg]
        simp only [addMissingIndicatorCol]
        rw [if_pos (h a (List.mem_cons_self _ _) hg.1 hg.2)]
      · rw [if_neg hg]
    rw [hstep]
    exact ih (fun c hcr hh ht => h c (List.mem_cons_of_mem _ hcr) hh ht)

theorem addIndicators_rows_pres (ami target : List String) (t : Table) (P : Row → Prop)
    (hP : ∀ (a : String) (r : Row), P r →
      P (setCellRow r (a ++ "__is_missing") (indicatorCell (getCell r a))))
    (h : ∀ r ∈ t.rows, P r) : ∀ r ∈ (addIndicators ami target t).rows, P r := by
  induction ami generalizing t with
  | nil => exact h
  | cons a rest ih =>
    rw [addIndicators, List.foldl_cons]
    refine ih _ (fun r hr => ?_)
    by_cases hg : a ∈ t.header ∧ a ∈ target
    · rw [if_pos hg] at hr
      simp only [addMissingIndicatorCol] at hr
      by_cases hi : a ++ "__is_missing" ∈ t.header
      · rw [if_pos hi] at hr
        exact h r hr
      · rw [if_neg hi] at hr
        simp only [addColTable, List.mem_map] at hr
        obtain ⟨r0, hr0, hre⟩ := hr
        rw [← hre]
        exact hP a r0 (h r0 hr0)
    · rw [if_neg hg] at hr
      exact h r hr

/-- A column created by the missing-indicator pass (absent from the input
header) holds a numeric cell in every row, and its key is present. -/
theorem addIndicators_created (ami target : List String) (t : Table) (c : String)
    (hnot : c ∉ t.header) (hin : c ∈ (addIndicators ami target t).header) :
    ∀ r ∈ (addIndicators ami target t).rows,
      (∃ q : ℚ, getCell r c = Cell.num q) ∧ c ∈ keysRow r := by
  induction ami generalizing t with
  | nil => exact absurd hin hnot
  | cons a rest ih =>
    rw [addIndicators, List.foldl_cons] at hin ⊢
    by_cases hg : a ∈ t.header ∧ a ∈ target
    · rw [if_pos hg] at hin ⊢
      simp only [addMissingIndicatorCol] at hin ⊢
      by_cases hi : a ++ "__is_missing" ∈ t.header
      · rw [if_pos hi] at hin ⊢
        exact ih _ hnot hin
      · rw [if_neg hi] at hin ⊢
        by_cases hc' : c ∈ (addColTable t (a ++ "__is_missing")
            (fun r => indicatorCell (getCell r a))).header
        · have hceq : c = a ++ "__is_missing" := by
            simp only [addColTable, List.mem_append] at hc'
            rcases hc' with h | h
            · exact absurd h hnot
            · simpa using h
          subst hceq
          refine addIndicators_rows_pres rest target _ _ (fun b r hPr => ?_) (fun r hr => ?_)
          · constructor
            · by_cases hbc : b ++ "__is_missing" = a ++ "__is_missing"
              · rw [hbc, getCell_setCellRow_same]
                by_cases hz : getCell r b = Cell.null
                · exact ⟨1, by simp [indicatorCell, hz]⟩
                · exact ⟨0, by simp [indicatorCell, hz]⟩
              · rw [getCell_setCellRow_ne _ _ _ _ hbc]
                exact hPr.1
            · exact keysRow_setCellRow_mono _ _ _ _ hPr.2
          · simp only [addColTable, List.mem_map] at hr
            obtain ⟨r0, hr0, hre⟩ := hr
            rw [← hre]
            constructor
            · rw [getCell_setCellRow_same]
              by_cases hz : getCell r0 a = Cell.null
              · exact ⟨1, by simp [indicatorCell, hz]⟩
              · exact ⟨0, by simp [indicatorCell, hz]⟩
            · exact mem_keysRow_setCellRow _ _ _
        · exact ih _ hc' hin
    · rw [if_neg hg] at hin ⊢
      exact ih _ hnot hin

theorem mem_select_of_mem_header (t t' : Table) (cols : Option (List String))
    (c : String) (h : c ∈ select t' cols) (hh : c ∈ t.header) : c ∈ select t cols := by
  cases cols with
  | none =>
    simp only [select, List.mem_filter, decide_eq_true_eq] at h ⊢
    exact ⟨h.1, hh⟩
  | some cs =>
    simp only [select, List.mem_filter, decide_eq_true_eq] at h ⊢
    exact ⟨h.1, hh⟩

theorem mem_header_of_mem_select (t : Table) (cols : Option (List String))
    (c : String) (h : c ∈ select t cols) : c ∈ t.header := by
  cases cols with
  | none =>
    have := (List.mem_filter.mp h).2
    simpa using this
  | some cs =>
    have := (List.mem_filter.mp h).2
    simpa using this

theorem imputeFillOps_def (art : ImputationArtifacts) (hd tg : List String) :
    imputeFillOps art hd tg
      = fillOpsOf
          ((((art.medians.map Prod.fst ++ art.zero_fill).dedup).filter
              (fun c => decide (c ∈ hd ∧ c ∈ tg))).filter
              (fun c => decide (c ∈ hd)))
          (art.medians.filter (fun cm => decide (cm.1 ∈ hd ∧ cm.1 ∈ tg)))
          (art.zero_fill.filter (fun c => decide (c ∈ hd ∧ c ∈ tg))) := rfl

theorem mem_fillOpsOf (cl : List String) (ml : List (String × PFloat))
    (zl : List String) (op : String × (Cell → Cell)) (hop : op ∈ fillOpsOf cl ml zl) :
    (∃ a ∈ cl, op = (a, toNumeric)) ∨ (∃ cm ∈ ml, op = (cm.1, fillCell cm.2)) ∨
      (∃ a ∈ zl, op = (a, fillCell (some 0))) := by
  rw [fillOpsOf, List.append_assoc] at hop
  rcases List.mem_append.mp hop with h | h
  · obtain ⟨a, ha, hae⟩ := List.mem_map.mp h
    exact Or.inl ⟨a, ha, hae.symm⟩
  · rcases List.mem_append.mp h with h | h
    · obtain ⟨cm, hm, hme⟩ := List.mem_map.mp h
      exact Or.inr (Or.inl ⟨cm, hm, hme.symm⟩)
    · obtain ⟨a, ha, hae⟩ := List.mem_map.mp h
      exact Or.inr (Or.inr ⟨a, ha, hae.symm⟩)

theorem fillOpsOf_coerce_mem (cl : List String) (ml : List (String × PFloat))
    (zl : List String) (a : String) (ha : a ∈ cl) : (a, toNumeric) ∈ fillOpsOf cl ml zl :=
  List.mem_append_left _ (List.mem_append_left _ (List.mem_map.mpr ⟨a, ha, rfl⟩))

theorem fillOpsOf_med_mem (cl : List String) (ml : List (String × PFloat))
    (zl : List String) (cm : String × PFloat) (h : cm ∈ ml) :
    (cm.1, fillCell cm.2) ∈ fillOpsOf cl ml zl :=
  List.mem_append_left _ (List.mem_append_right _ (List.mem_map.mpr ⟨cm, h, rfl⟩))

theorem fillOpsOf_zero_mem (cl : List String) (ml : List (String × PFloat))
    (zl : List String) (a : String) (h : a ∈ zl) :
    (a, fillCell (some 0)) ∈ fillOpsOf cl ml zl :=
  List.mem_append_right _ (List.mem_map.mpr ⟨a, h, rfl⟩)

theorem opsFor_map_shape {α : Type} (l : List α) (k : α → String) (F : α → Cell → Cell)
    (c : String) (g : Cell → Cell)
    (hg : g ∈ opsFor (l.map (fun a => (k a, F a))) c) : ∃ a ∈ l, g = F a := by
  rw [opsFor, List.mem_map] at hg
  obtain ⟨op, hop, hge⟩ := hg
  obtain ⟨a, ha, hae⟩ := List.mem_map.mp (List.mem_of_mem_filter hop)
  exact ⟨a, ha, by rw [← hge, ← hae]⟩

/-- The state of a fill column after the whole fill batch: never a raw
string, a fixed point of a further coercion, and a fixed point of every
fill function whose entry occurs in the batch. -/
theorem fills_chain_fixpoint (cl : List String) (ml : List (String × PFloat))
    (zl : List String) (c : String) (x0 : Cell) (hcc : c ∈ cl) :
    notStr (composeCell (opsFor (fillOpsOf cl ml zl) c) x0) ∧
    toNumeric (composeCell (opsFor (fillOpsOf cl ml zl) c) x0)
      = composeCell (opsFor (fillOpsOf cl ml zl) c) x0 ∧
    ∀ m : PFloat, (c, fillCell m) ∈ fillOpsOf cl ml zl →
      fillCell m (composeCell (opsFor (fillOpsOf cl ml zl) c) x0)
        = composeCell (opsFor (fillOpsOf cl ml zl) c) x0 := by
  have hfs : opsFor (fillOpsOf cl ml zl) c
      = opsFor (cl.map (fun a => (a, toNumeric))) c
        ++ (opsFor (ml.map (fun cm => (cm.1, fillCell cm.2))) c
            ++ opsFor (zl.map (fun a => (a, fillCell (some 0)))) c) := by
    rw [fillOpsOf, opsFor_append, opsFor_append, List.append_assoc]
  have hAall : ∀ g ∈ opsFor (cl.map (fun a => (a, toNumeric))) c, g = toNumeric := by
    intro g hg
    obtain ⟨a, _, hge⟩ := opsFor_map_shape cl (fun a => a) (fun _ => toNumeric) c g hg
    exact hge
  have hAtn : toNumeric ∈ opsFor (cl.map (fun a => (a, toNumeric))) c :=
    mem_opsFor_of _ c toNumeric (List.mem_map.mpr ⟨c, hcc, rfl⟩)
  have hAne : opsFor (cl.map (fun a => (a, toNumeric))) c ≠ [] :=
    List.ne_nil_of_mem hAtn
  have hBCshape : ∀ g ∈ opsFor (ml.map (fun cm => (cm.1, fillCell cm.2))) c
      ++ opsFor (zl.map (fun a => (a, fillCell (some 0)))) c,
      ∃ m : PFloat, g = fillCell m := by
    intro g hg
    rcases List.mem_append.mp hg with hg | hg
    · obtain ⟨cm, _, hge⟩ := opsFor_map_shape ml (fun cm => cm.1)
        (fun cm => fillCell cm.2) c g hg
      exact ⟨cm.2, hge⟩
    · obtain ⟨a, _, hge⟩ := opsFor_map_shape zl (fun a => a)
        (fun _ => fillCell (some 0)) c g hg
      exact ⟨some 0, hge⟩
  have hyA : notStr (composeCell (opsFor (cl.map (fun a => (a, toNumeric))) c) x0) :=
    composeCell_toNumerics_notStr _ hAne hAall x0
  have hXeq : composeCell (opsFor (fillOpsOf cl ml zl) c) x0
      = composeCell (opsFor (ml.map (fun cm => (cm.1, fillCell cm.2))) c
          ++ opsFor (zl.map (fun a => (a, fillCell (some 0)))) c)
          (composeCell (opsFor (cl.map (fun a => (a, toNumeric))) c) x0) := by
    rw [hfs, composeCell_append]
  have hX : notStr (composeCell (opsFor (fillOpsOf cl ml zl) c) x0) := by
    rw [hXeq]
    refine composeCell_preserve notStr _ (fun g hg y hy => ?_) _ hyA
    obtain ⟨m, rfl⟩ := hBCshape g hg
    exact notStr_fillCell m y hy
  refine ⟨hX, toNumeric_id_of_notStr _ hX, fun m hm => ?_⟩
  rw [fillOpsOf, List.append_assoc] at hm
  rcases List.mem_append.mp hm with hm | hm
  · obtain ⟨a, _, hae⟩ := List.mem_map.mp hm
    have htn : toNumeric = fillCell m := congrArg Prod.snd hae
    rw [← htn]
    exact toNumeric_id_of_notStr _ hX
  · have hmemBC : fillCell m ∈ opsFor (ml.map (fun cm => (cm.1, fillCell cm.2))) c
        ++ opsFor (zl.map (fun a => (a, fillCell (some 0)))) c := by
      rcases List.mem_append.mp hm with hm | hm
      · exact List.mem_append_left _ (mem_opsFor_of _ c _ hm)
      · exact List.mem_append_right _ (mem_opsFor_of _ c _ hm)
    obtain ⟨l1, l2, hBCsplit⟩ := List.append_of_mem hmemBC
    have hl1shape : ∀ g ∈ l1, ∃ m' : PFloat, g = fillCell m' := fun g hg =>
      hBCshape g (by rw [hBCsplit]; exact List.mem_append_left _ hg)
    have hl2shape : ∀ g ∈ l2, ∃ m' : PFloat, g = fillCell m' := fun g hg =>
      hBCshape g (by
        rw [hBCsplit]
        exact List.mem_append_right _ (List.mem_cons_of_mem _ hg))
    have hz : notStr (composeCell l1
        (composeCell (opsFor (cl.map (fun a => (a, toNumeric))) c) x0)) := by
      refine composeCell_preserve notStr l1 (fun g hg y hy => ?_) _ hyA
      obtain ⟨m', rfl⟩ := hl1shape g hg
      exact notStr_fillCell m' y hy
    have hXeq2 : composeCell (opsFor (fillOpsOf cl ml zl) c) x0
        = composeCell l2 (fillCell m (composeCell l1
            (composeCell (opsFor (cl.map (fun a => (a, toNumeric))) c) x0))) := by
      rw [hXeq, hBCsplit, composeCell_append]
      rfl
    have hl2num : ∀ f ∈ l2, ∀ q : ℚ, ∃ q' : ℚ, f (Cell.num q) = Cell.num q' := by
      intro f hf q
      obtain ⟨m', rfl⟩ := hl2shape f hf
      exact ⟨q, rfl⟩
    by_cases hXnull : composeCell (opsFor (fillOpsOf cl ml zl) c) x0 = Cell.null
    · have hznull : composeCell l1
          (composeCell (opsFor (cl.map (fun a => (a, toNumeric))) c) x0) = Cell.null := by
        rcases hz with hz | ⟨q, hz⟩
        · exact hz
        · exfalso
          rw [hz, fillCell_num] at hXeq2
          obtain ⟨q', hq'⟩ := composeCell_num_of_num l2 hl2num q
          rw [hq', hXnull] at hXeq2
          exact Cell.noConfusion hXeq2
      have hmnone : m = none := by
        cases m with
        | none => rfl
        | some q =>
          exfalso
          rw [hznull] at hXeq2
          have hstep : fillCell (some q) Cell.null = Cell.num q := rfl
          rw [hstep] at hXeq2
          obtain ⟨q', hq'⟩ := composeCell_num_of_num l2 hl2num q
          rw [hq', hXnull] at hXeq2
          exact Cell.noConfusion hXeq2
      rw [hXnull, hmnone]
      rfl
    · rcases hX with hX' | ⟨q, hX'⟩
      · exact absurd hX' hXnull
      · rw [hX']
        rfl

theorem mapOps_congr (o1 o2 : List (String × (Cell → Cell))) (t : Table)
    (h : ∀ r ∈ t.rows, applyOps o1 r = applyOps o2 r) : mapOps o1 t = mapOps o2 t := by
  cases t
  simp only [mapOps, Table.mk.injEq, true_and]
  exact List.map_congr_left h

theorem imputeFillOps_key_mem (art : ImputationArtifacts) (hd tg : List String)
    (op : String × (Cell → Cell)) (hop : op ∈ imputeFillOps art hd tg) :
    op.1 ∈ hd ∧ op.1 ∈ tg := by
  rw [imputeFillOps_def] at hop
  rcases mem_fillOpsOf _ _ _ _ hop with ⟨a, ha, hae⟩ | ⟨cm, hm, hme⟩ | ⟨a, ha, hae⟩
  · have hg := List.of_mem_filter (List.mem_of_mem_filter ha)
    simp only [decide_eq_true_eq] at hg
    rw [hae]
    exact hg
  · have hg := List.of_mem_filter hm
    simp only [decide_eq_true_eq] at hg
    rw [hme]
    exact hg
  · have hg := List.of_mem_filter ha
    simp only [decide_eq_true_eq] at hg
    rw [hae]
    exact hg

/-- One fill-batch update is a fixed point on a row already processed by a
fill batch over the same header and a target list containing the column. -/
theorem impute_op_fix_numeric_col (art : ImputationArtifacts) (hd tg1 tg2 : List String)
    (r : Row) (c : String) (f : Cell → Cell)
    (hop : (c, f) ∈ imputeFillOps art hd tg2) (hhd : c ∈ hd) (htg1 : c ∈ tg1) :
    setCellRow (applyOps (imputeFillOps art hd tg1) r) c
        (f (getCell (applyOps (imputeFillOps art hd tg1) r) c))
      = applyOps (imputeFillOps art hd tg1) r := by
  have hcL : c ∈ (art.medians.map Prod.fst ++ art.zero_fill).dedup := by
    rw [imputeFillOps_def] at hop
    rcases mem_fillOpsOf _ _ _ _ hop with ⟨a, ha, hae⟩ | ⟨cm, hm, hme⟩ | ⟨a, ha, hae⟩
    · have hca : c = a := congrArg Prod.fst hae
      rw [hca]
      exact List.mem_of_mem_filter (List.mem_of_mem_filter ha)
    · have hca : c = cm.1 := congrArg Prod.fst hme
      rw [hca]
      exact List.mem_dedup.mpr (List.mem_append_left _
        (List.mem_map.mpr ⟨cm, List.mem_of_mem_filter hm, rfl⟩))
    · have hca : c = a := congrArg Prod.fst hae
      rw [hca]
      exact List.mem_dedup.mpr (List.mem_append_right _ (List.mem_of_mem_filter ha))
  have hcc1 : c ∈ (((art.medians.map Prod.fst ++ art.zero_fill).dedup).filter
      (fun x => decide (x ∈ hd ∧ x ∈ tg1))).filter (fun x => decide (x ∈ hd)) := by
    refine List.mem_filter.mpr ⟨List.mem_filter.mpr ⟨hcL, ?_⟩, ?_⟩
    · simp only [decide_eq_true_eq]
      exact ⟨hhd, htg1⟩
    · simp only [decide_eq_true_eq]
      exact hhd
  obtain ⟨hXns, hXtn, hXfill⟩ := fills_chain_fixpoint
    ((((art.medians.map Prod.fst ++ art.zero_fill).dedup).filter
        (fun x => decide (x ∈ hd ∧ x ∈ tg1))).filter (fun x => decide (x ∈ hd)))
    (art.medians.filter (fun cm => decide (cm.1 ∈ hd ∧ cm.1 ∈ tg1)))
    (art.zero_fill.filter (fun x => decide (x ∈ hd ∧ x ∈ tg1)))
    c (getCell r c) hcc1
  have hfx : f (composeCell (opsFor (fillOpsOf
      ((((art.medians.map Prod.fst ++ art.zero_fill).dedup).filter
          (fun x => decide (x ∈ hd ∧ x ∈ tg1))).filter (fun x => decide (x ∈ hd)))
      (art.medians.filter (fun cm => decide (cm.1 ∈ hd ∧ cm.1 ∈ tg1)))
      (art.zero_fill.filter (fun x => decide (x ∈ hd ∧ x ∈ tg1)))) c) (getCell r c))
      = composeCell (opsFor (fillOpsOf
      ((((art.medians.map Prod.fst ++ art.zero_fill).dedup).filter
          (fun x => decide (x ∈ hd ∧ x ∈ tg1))).filter (fun x => decide (x ∈ hd)))
      (art.medians.filter (fun cm => decide (cm.1 ∈ hd ∧ cm.1 ∈ tg1)))
      (art.zero_fill.filter (fun x => decide (x ∈ hd ∧ x ∈ tg1)))) c) (getCell r c) := by
    rw [imputeFillOps_def] at hop
    rcases mem_fillOpsOf _ _ _ _ hop with ⟨a, ha, hae⟩ | ⟨cm, hm, hme⟩ | ⟨a, ha, hae⟩
    · have hfa : f = toNumeric := congrArg Prod.snd hae
      rw [hfa]
      exact hXtn
    · have hfa : f = fillCell cm.2 := congrArg Prod.snd hme
      have hca : c = cm.1 := congrArg Prod.fst hme
      have hmm : cm ∈ art.medians.filter (fun cm => decide (cm.1 ∈ hd ∧ cm.1 ∈ tg1)) := by
        refine List.mem_filter.mpr ⟨List.mem_of_mem_filter hm, ?_⟩
        simp only [decide_eq_true_eq]
        rw [← hca]
        exact ⟨hhd, htg1⟩
      rw [hfa]
      refine hXfill cm.2 ?_
      rw [hca]
      exact fillOpsOf_med_mem _ _ _ cm hmm
    · have hfa : f = fillCell (some 0) := congrArg Prod.snd hae
      have hca : c = a := congrArg Prod.fst hae
      have hmm : a ∈ art.zero_fill.filter (fun x => decide (x ∈ hd ∧ x ∈ tg1)) := by
        refine List.mem_filter.mpr ⟨List.mem_of_mem_filter ha, ?_⟩
        simp only [decide_eq_true_eq]
        rw [← hca]
        exact ⟨hhd, htg1⟩
      rw [hfa]
      refine hXfill (some 0) ?_
      rw [hca]
      exact fillOpsOf_zero_mem _ _ _ a hmm
  rw [getCell_applyOps, imputeFillOps_def, hfx, ← getCell_applyOps]
  exact setCellRow_self _ c (mem_keysRow_applyOps _ _ c toNumeric
    (fillOpsOf_coerce_mem _ _ _ c hcc1))

/-- A fill-batch update for a column outside the fit-time target list is a
fixed point on any row whose cell at that column is numeric. -/
theorem impute_op_fix_created_col (art : ImputationArtifacts) (hd tg1 tg2 : List String)
    (r : Row) (c : String) (f : Cell → Cell) (q : ℚ)
    (hop : (c, f) ∈ imputeFillOps art hd tg2) (hnotsel : c ∉ tg1)
    (hq : getCell r c = Cell.num q) (hkey : c ∈ keysRow r) :
    setCellRow (applyOps (imputeFillOps art hd tg1) r) c
        (f (getCell (applyOps (imputeFillOps art hd tg1) r) c))
      = applyOps (imputeFillOps art hd tg1) r := by
  have hkeysne : ∀ op' ∈ imputeFillOps art hd tg1, op'.1 ≠ c := by
    intro op' hop' he
    apply hnotsel
    rw [← he]
    exact (imputeFillOps_key_mem art hd tg1 op' hop').2
  have hnil : opsFor (imputeFillOps art hd tg1) c = [] := opsFor_eq_nil _ _ hkeysne
  have hgr : getCell (applyOps (imputeFillOps art hd tg1) r) c = Cell.num q := by
    rw [getCell_applyOps, hnil]
    exact hq
  have hfq : f (Cell.num q) = Cell.num q := by
    rw [imputeFillOps_def] at hop
    rcases mem_fillOpsOf _ _ _ _ hop with ⟨a, _, hae⟩ | ⟨cm, _, hme⟩ | ⟨a, _, hae⟩
    · have hfa : f = toNumeric := congrArg Prod.snd hae
      rw [hfa]
      rfl
    · have hfa : f = fillCell cm.2 := congrArg Prod.snd hme
      rw [hfa, fillCell_num]
    · have hfa : f = fillCell (some 0) := congrArg Prod.snd hae
      rw [hfa, fillCell_num]
  rw [hgr, hfq, ← hgr]
  exact setCellRow_self _ c (keysRow_applyOps_mono _ _ _ hkey)

/-- C3 counterexample: with `add_missing_indicator = ["a", "a__is_missing"]`,
the first `impute` creates the column `a__is_missing`, and the second
`impute` then sees it in the (re-selected) target and creates
`a__is_missing__is_missing`, so the two results differ. -/
theorem impute_not_idempotent_counterexample :
    impute artC3 (impute artC3 tC3 (some ["a", "a__is_missing"]))
        (some ["a", "a__is_missing"])
      ≠ impute artC3 tC3 (some ["a", "a__is_missing"]) := by decide

/-- C3 (amended): `impute` is idempotent provided no listed
missing-indicator column is itself the indicator name `<col>__is_missing`
of another listed column (true of all fitted artifacts, whose lists come
from the strategy registry): the second application leaves no nulls to fill
in the covered columns and recreates no indicator column. -/
theorem impute_idempotent_for_nonchained_indicators
    (art : ImputationArtifacts) (t : Table) (cols : Option (List String))
    (H : ∀ c ∈ art.add_missing_indicator,
      (c ++ "__is_missing") ∉ art.add_missing_indicator) :
    impute art (impute art t cols) cols = impute art t cols := by
  have hhdr : (impute art t cols).header
      = (addIndicators art.add_missing_indicator (select t cols) t).header := by
    rw [impute_eq_mapOps art t cols]
    rfl
  have hids : addIndicators art.add_missing_indicator
      (select (impute art t cols) cols) (impute art t cols) = impute art t cols := by
    refine addIndicators_id _ _ _ (fun c hcami hch hct => ?_)
    rw [hhdr] at hch ⊢
    rcases header_addIndicators_cases _ _ _ _ hch with hcht | ⟨x, hxami, hceq⟩
    · exact addIndicators_processed _ _ _ _ hcami hcht
        (mem_select_of_mem_header t (impute art t cols) cols c hct hcht)
    · rw [hceq] at hcami
      exact absurd hcami (H x hxami)
  rw [impute_eq_mapOps art (impute art t cols) cols, hids, hhdr,
    impute_eq_mapOps art t cols, mapOps_mapOps]
  refine mapOps_congr _ _ _ (fun r hr => ?_)
  rw [applyOps_append]
  refine applyOps_fixpoint _ _ (fun op hop => ?_)
  obtain ⟨c, f⟩ := op
  have hg := imputeFillOps_key_mem _ _ _ _ hop
  by_cases hA : c ∈ t.header
  · exact impute_op_fix_numeric_col art _ _ _ r c f hop hg.1
      (mem_select_of_mem_header t _ cols c hg.2 hA)
  · obtain ⟨⟨q, hq⟩, hkey⟩ := addIndicators_created art.add_missing_indicator
      (select t cols) t c hA hg.1 r hr
    exact impute_op_fix_created_col art _ _ _ r c f q hop
      (fun hsel => hA (mem_header_of_mem_select t cols c hsel)) hq hkey

theorem impute_idempotent_for_nonchained_indicators_witness :
    impute artW3 (impute artW3 tW3 (some ["a", "b"])) (some ["a", "b"])
      = impute artW3 tW3 (some ["a", "b"]) :=
  impute_idempotent_for_nonchained_indicators artW3 tW3 (some ["a", "b"]) (by decide)
